import Mathlib

/-!
Verification development for the multus incremental backup engine.

The definitions below are a shallow embedding of the walk-and-reconcile
driver `backup` (and its helper `removeOld`) from the repository's main
package.  File contents, signatures and deltas are byte lists; paths are
strings; the file system and the engine's file operations are recorded as
an explicit event trace.  Components of the repository that are only
declared here (the signature cache, the snapshot writer, the rsync delta
codec) are modelled from the specification, each marked in its doc
comment.
-/

/-- Byte strings: file contents, signatures, deltas. -/
abbrev Bytes := List Nat

/-- `listStarts pre l` is true when `pre` is an initial segment of `l`.
Embeds Go's `strings.HasPrefix` on the underlying character lists. -/
def listStarts : List Char → List Char → Bool
  | [], _ => true
  | _ :: _, [] => false
  | a :: as, b :: bs => a == b && listStarts as bs

/-- Go `strings.HasPrefix s pre` (argument order: pattern first). -/
def strStarts (pre s : String) : Bool := listStarts pre.data s.data

/-- Go `strings.HasSuffix s suf` (argument order: pattern first). -/
def strEnds (suf s : String) : Bool := listStarts suf.data.reverse s.data.reverse

/-- `memoryLimit` from the source: `1024 * 1024 * 10`. -/
def memoryLimit : Int := 1024 * 1024 * 10

/-- The committed signature cache file name used by `backup`. -/
def sigCacheName : String := "sig.cache"

/-- The transient cache file name used by `backup` during a run. -/
def inprogName : String := "sig.cache.inprogress"

/-- Modelled from the spec: the rsync delta codec (`rsync.GenDelta`) is an
external component, not under the repository's source here.  It is modelled
as a literal-only delta (the payload carries the full new content), which
satisfies the spec's round-trip law
`apply_delta(prev, generate_delta(sig, new)) = new`. -/
def GenDelta (_sig : Bytes) (newData : Bytes) : Bytes := newData

/-- Modelled from the spec: deterministic reconstruction for the delta
codec; inverse of `GenDelta` per the spec's round-trip law. -/
def ApplyDelta (_prev delta : Bytes) : Bytes := delta

/-- File-type classification used by `backup`'s `switch` on the file mode. -/
inductive FType
  | socket
  | charDev
  | blockDev
  | fifo
  | dir
  | symlink
  | regular
  deriving DecidableEq

/-- Injected I/O failure points inside the changed-regular-file branches of
`backup` (temp-file staging and record emission). -/
inductive FailPoint
  | createTemp
  | genDelta
  | seekT
  | statF
  | snapAdd
  deriving DecidableEq

/-- One entry handed to the walk callback.  `sig` is the signature that
`GenSignature` computes for the entry's current state (`GenSignature`
itself is repository code not present here, so its output is carried as
data).  `walkErr` is the error argument of the callback; `ctxCancelled`
is whether `ctx.Err() != nil` when the entry is processed; the `*OK`
fields are the outcomes of `NewMetadata`, `os.Readlink` and `os.Open`. -/
structure Entry where
  path : String
  walkErr : Bool
  ctxCancelled : Bool
  metaOK : Bool
  ftype : FType
  readlinkOK : Bool
  openOK : Bool
  target : Bytes
  content : Bytes
  size : Int
  sig : Bytes
  failPoint : Option FailPoint
  deriving DecidableEq

/-- A snapshot record: path, record kind (0 metadata-only, 1 full content,
2 delta, 3 tombstone) and payload bytes.  The kind/payload classification
follows the spec's record table for the snapshot writer, whose own source
is not present here. -/
structure SnapRec where
  path : String
  kind : Nat
  payload : Bytes
  deriving DecidableEq

/-- File-system events performed by a run, in order. -/
inductive Ev
  | readF (name : String)
  | createF (name : String)
  | writeF (name : String)
  | closeF (name : String)
  | removeF (name : String)
  | renameF (src : String) (dst : String)
  | chownF (name : String)
  deriving DecidableEq

/-- Reasons a run aborts. -/
inductive EKind
  | cancelled
  | metaErr
  | readlinkErr
  | dupAdd
  | ioErr
  deriving DecidableEq

/-- Mutable state threaded through the walk: snapshot records so far, the
`sc.Add` calls so far, the deletion set `pathsToCheck`, and the excluded
counter `filesExcluded`. -/
structure WalkState where
  recs : List SnapRec
  scAdds : List (String × Bytes)
  remaining : List String
  skippedExcl : Nat
  deriving DecidableEq

/-- Static per-run data: cleaned absolute backup path, exclude predicates,
the loaded previous cache, and the snapshot file name. -/
structure RunEnv where
  bp : String
  excludes : List (String → Bool)
  cache : List (String × Bytes)
  snapName : String

/-- Name of the temporary delta staging file `os.CreateTemp(cfg.BackupPath,
"delta")` creates inside the backup path (random suffix elided). -/
def tmpName (env : RunEnv) : String := env.bp ++ "/delta"

/-- `existingSC.Get`: append the cached signature for `p`, leaving the
buffer empty when there is no entry (including a nil cache). -/
def cacheGet (c : List (String × Bytes)) (p : String) : Bytes :=
  match c.lookup p with
  | some s => s
  | none => []

/-- Modelled from the spec: `SignatureCache.Add` (source not present here)
records `(path, signature)` and rejects a duplicate path as an error. -/
def scAddE (st : WalkState) (p : String) (s : Bytes) : Except EKind WalkState :=
  if (st.scAdds.map Prod.fst).contains p then .error .dupAdd
  else .ok { st with scAdds := st.scAdds ++ [(p, s)] }

/-- `delete(pathsToCheck, srcPath)`. -/
def finishEntry (st : WalkState) (p : String) : WalkState :=
  { st with remaining := st.remaining.filter (fun q => q != p) }

/-- The record list an entry branch appends to the snapshot. -/
def recsOf : Option SnapRec → List SnapRec
  | some r => [r]
  | none => []

/-- Tail shared by every non-skipped entry branch: optionally append the
snapshot record just written, then `sc.Add(srcPath, sig)` (write to the
in-progress cache file) and `delete(pathsToCheck, srcPath)`. -/
def withAdd (st : WalkState) (p : String) (s : Bytes) (preEvs : List Ev)
    (rec? : Option SnapRec) : List Ev × Except EKind WalkState :=
  let st1 : WalkState := { st with recs := st.recs ++ recsOf rec? }
  match scAddE st1 p s with
  | .error k => (preEvs, .error k)
  | .ok st2 => (preEvs ++ [Ev.writeF inprogName], .ok (finishEntry st2 p))

/-- Directory / device / fifo branch of `backup`'s switch: metadata-only
signature; on change emit a kind-0 record, otherwise just re-record the
cached signature. -/
def processDirLike (env : RunEnv) (st : WalkState) (e : Entry) (cur : Bytes) :
    List Ev × Except EKind WalkState :=
  if cur = e.sig then
    withAdd st e.path cur [] none
  else
    withAdd st e.path e.sig [Ev.writeF env.snapName] (some ⟨e.path, 0, []⟩)

/-- Symlink branch: a failed `os.Readlink` propagates an error (aborting
the walk); a new symlink emits kind 1 with the target bytes; a changed one
emits kind 2 with `rsync.GenDelta(prevSig, target)`. -/
def processSymlink (env : RunEnv) (st : WalkState) (e : Entry) (cur : Bytes) :
    List Ev × Except EKind WalkState :=
  if !e.readlinkOK then ([], .error .readlinkErr)
  else if cur = e.sig then
    withAdd st e.path cur [] none
  else if cur = [] then
    withAdd st e.path e.sig [Ev.writeF env.snapName] (some ⟨e.path, 1, e.target⟩)
  else
    withAdd st e.path e.sig [Ev.writeF env.snapName]
      (some ⟨e.path, 2, GenDelta cur e.target⟩)

/-- Regular-file (and unknown-mode) branch: a failed `os.Open` is logged
and the entry is skipped without touching `pathsToCheck`; a changed file
larger than `memoryLimit * 10` stages its delta in a temp file inside the
backup path (removed on every exit path), a smaller one buffers the delta
in memory; a new file streams its raw content. -/
def processRegular (env : RunEnv) (st : WalkState) (e : Entry) (cur : Bytes) :
    List Ev × Except EKind WalkState :=
  if !e.openOK then ([], .ok st)
  else if cur = e.sig then
    withAdd st e.path cur [] none
  else if cur ≠ [] then
    if e.size > memoryLimit * 10 then
      match e.failPoint with
      | some .createTemp => ([], .error .ioErr)
      | some .genDelta =>
          ([Ev.createF (tmpName env), Ev.closeF (tmpName env),
            Ev.removeF (tmpName env)], .error .ioErr)
      | some .seekT =>
          ([Ev.createF (tmpName env), Ev.writeF (tmpName env),
            Ev.closeF (tmpName env), Ev.removeF (tmpName env)], .error .ioErr)
      | some .statF =>
          ([Ev.createF (tmpName env), Ev.writeF (tmpName env),
            Ev.closeF (tmpName env), Ev.removeF (tmpName env)], .error .ioErr)
      | some .snapAdd =>
          ([Ev.createF (tmpName env), Ev.writeF (tmpName env),
            Ev.closeF (tmpName env), Ev.removeF (tmpName env)], .error .ioErr)
      | none =>
          withAdd st e.path e.sig
            [Ev.createF (tmpName env), Ev.writeF (tmpName env),
             Ev.writeF env.snapName, Ev.closeF (tmpName env),
             Ev.removeF (tmpName env)]
            (some ⟨e.path, 2, GenDelta cur e.content⟩)
    else
      match e.failPoint with
      | some .genDelta => ([], .error .ioErr)
      | some .snapAdd => ([], .error .ioErr)
      | _ =>
          withAdd st e.path e.sig [Ev.writeF env.snapName]
            (some ⟨e.path, 2, GenDelta cur e.content⟩)
  else
    match e.failPoint with
    | some .statF => ([], .error .ioErr)
    | some .snapAdd => ([], .error .ioErr)
    | _ =>
        withAdd st e.path e.sig [Ev.writeF env.snapName]
          (some ⟨e.path, 1, e.content⟩)

/-- One invocation of the walk callback, mirroring its check order: walk
error (logged, continue), context cancellation (abort), backup-directory
prefix skip, exclude patterns, `NewMetadata`, then the file-type switch. -/
def processEntry (env : RunEnv) (st : WalkState) (e : Entry) :
    List Ev × Except EKind WalkState :=
  if e.walkErr then ([], .ok st)
  else if e.ctxCancelled then ([], .error .cancelled)
  else if strStarts env.bp e.path then ([], .ok st)
  else if env.excludes.any (fun ex => ex e.path) then
    ([], .ok { st with skippedExcl := st.skippedExcl + 1 })
  else if !e.metaOK then ([], .error .metaErr)
  else
    let cur := cacheGet env.cache e.path
    match e.ftype with
    | .socket => ([], .ok st)
    | .charDev => processDirLike env st e cur
    | .blockDev => processDirLike env st e cur
    | .fifo => processDirLike env st e cur
    | .dir => processDirLike env st e cur
    | .symlink => processSymlink env st e cur
    | .regular => processRegular env st e cur

/-- The walk over all configured roots, flattened to one entry sequence;
stops at the first propagated error. -/
def runWalk (env : RunEnv) (st : WalkState) :
    List Entry → List Ev × WalkState × Option EKind
  | [] => ([], st, none)
  | e :: es =>
    match processEntry env st e with
    | (evs, .error k) => (evs, st, some k)
    | (evs, .ok st') =>
      match runWalk env st' es with
      | (evs2, st2, r2) => (evs ++ evs2, st2, r2)

/-- Configuration fields of `config` consumed by `backup`.  `backupPath`
stands for the cleaned absolute destination directory. -/
structure Config where
  backupPath : String
  excludes : List (String → Bool)
  maxIntervals : Nat
  dryRun : Bool

/-- The previously committed signature cache as loaded from `sig.cache`:
generation header (base timestamp, increment index) and path/signature
entries. -/
structure PrevCache where
  stamp : Int
  inst : Nat
  entries : List (String × Bytes)

/-- A run starts a fresh generation when no previous cache loaded or the
next increment would exceed `maxIntervals` (`existingSC.Instance()+1 >
cfg.Backup.MaxIntervals`). -/
def freshRun (cfg : Config) (prev : Option PrevCache) : Bool :=
  match prev with
  | none => true
  | some pc => decide (pc.inst + 1 > cfg.maxIntervals)

/-- Everything observable about one `backup` run. -/
structure RunOutput where
  trace : List Ev
  err : Option EKind
  recs : List SnapRec
  scAdds : List (String × Bytes)
  remaining : List String
  skippedExcl : Nat
  inc : Nat
  stamp : Int
  snapName : String

/-- The run environment `backup` sets up before walking. -/
def runEnvOf (cfg : Config) (prev : Option PrevCache) (stem : String) : RunEnv :=
  { bp := cfg.backupPath
    excludes := cfg.excludes
    cache := if freshRun cfg prev then [] else (prev.map PrevCache.entries).getD []
    snapName := stem ++ "-" ++
      toString (if freshRun cfg prev then 0 else (prev.map PrevCache.inst).getD 0 + 1) ++
      ".gz.enc" }

/-- One step of the file-system model: how a single event changes the
listing of `backup_path`. -/
def fsApply (fs : List String) (ev : Ev) : List String :=
  match ev with
  | .createF n => if fs.contains n then fs else fs ++ [n]
  | .removeF n => fs.filter (fun m => m != n)
  | .renameF s d => (fs.filter (fun m => m != s && m != d)) ++ [d]
  | _ => fs

/-- Directory listing after a trace of events. -/
def fsAfter (fs : List String) (evs : List Ev) : List String :=
  evs.foldl fsApply fs

/-- Number of `.gz.enc` snapshot files in a listing. -/
def gzCount (fs : List String) : Nat :=
  fs.countP (fun n => strEnds ".gz.enc" n)

/-- The increment the run writes: 0 on a fresh generation, previous
increment plus one otherwise. -/
def incOf (cfg : Config) (prev : Option PrevCache) : Nat :=
  if freshRun cfg prev then 0 else (prev.map PrevCache.inst).getD 0 + 1

/-- The base timestamp the run writes: `time.Now()` on a fresh generation,
the previous base timestamp otherwise. -/
def stampOf (cfg : Config) (prev : Option PrevCache) (now : Int) : Int :=
  if freshRun cfg prev then now else (prev.map PrevCache.stamp).getD 0

/-- The `removeOld` deletions: every `*.gz.enc` file in the destination,
only when this run has increment 0, and only logged when `dryRun` is on. -/
def rmEvsOf (cfg : Config) (prev : Option PrevCache) (initFiles : List String) :
    List Ev :=
  if incOf cfg prev = 0 then
    if cfg.dryRun then []
    else
      ((fsAfter initFiles [Ev.readF sigCacheName, Ev.createF inprogName]).filter
        (fun n => strEnds ".gz.enc" n)).map Ev.removeF
  else []

/-- Events before the walk: cache load, in-progress cache creation,
`removeOld`, snapshot creation. -/
def preTraceOf (cfg : Config) (prev : Option PrevCache) (stem : String)
    (initFiles : List String) : List Ev :=
  [Ev.readF sigCacheName, Ev.createF inprogName] ++ rmEvsOf cfg prev initFiles ++
  [Ev.createF (runEnvOf cfg prev stem).snapName]

/-- Initial walk state: empty snapshot and cache, `pathsToCheck :=
existingSC.Paths()`. -/
def st0Of (env : RunEnv) : WalkState := ⟨[], [], env.cache.map Prod.fst, 0⟩

/-- Cleanup after a failed walk: `snap.Close(); os.Remove(snap.Name())`. -/
def errTailOf (env : RunEnv) : List Ev :=
  [Ev.closeF env.snapName, Ev.removeF env.snapName]

/-- Events after a successful walk: tombstone writes, the closes of the
snapshot, the new cache and the loaded cache, the atomic rename of the
in-progress cache over `sig.cache`, and its chown. -/
def okTailOf (cfg : Config) (prev : Option PrevCache) (env : RunEnv)
    (rem : List String) : List Ev :=
  rem.map (fun _ => Ev.writeF env.snapName) ++
  ([Ev.closeF env.snapName, Ev.closeF inprogName] ++
    (if freshRun cfg prev then [] else [Ev.closeF sigCacheName])) ++
  [Ev.renameF inprogName sigCacheName, Ev.chownF sigCacheName]

/-- The whole `backup` run: load the previous cache, pick the generation,
create `sig.cache.inprogress`, on a fresh generation delete prior
snapshots (`removeOld`, dry-run aware), create the snapshot file, walk all
entries, tombstone what is left of the previous paths, then close both
files, atomically rename the in-progress cache over `sig.cache` and chown
it.  On any walk or tombstone error the partial snapshot is closed and
removed and the cache is never renamed.  `stem` stands for the
`<YYYYMMDDhhmm>-<hostname>` part of the snapshot name, `now` for
`time.Now()`, `initFiles` for the listing of `backup_path` at start. -/
def backupRun (cfg : Config) (prev : Option PrevCache) (stem : String)
    (now : Int) (initFiles : List String) (entries : List Entry) : RunOutput :=
  match runWalk (runEnvOf cfg prev stem) (st0Of (runEnvOf cfg prev stem)) entries with
  | (wEvs, stw, some k) =>
    { trace := preTraceOf cfg prev stem initFiles ++ wEvs ++
        errTailOf (runEnvOf cfg prev stem)
      err := some k
      recs := stw.recs, scAdds := stw.scAdds, remaining := stw.remaining
      skippedExcl := stw.skippedExcl, inc := incOf cfg prev
      stamp := stampOf cfg prev now
      snapName := (runEnvOf cfg prev stem).snapName }
  | (wEvs, stw, none) =>
    { trace := preTraceOf cfg prev stem initFiles ++ wEvs ++
        okTailOf cfg prev (runEnvOf cfg prev stem) stw.remaining
      err := none
      recs := stw.recs ++ stw.remaining.map (fun p => ⟨p, 3, []⟩)
      scAdds := stw.scAdds, remaining := stw.remaining
      skippedExcl := stw.skippedExcl, inc := incOf cfg prev
      stamp := stampOf cfg prev now
      snapName := (runEnvOf cfg prev stem).snapName }

/-- An entry reaches the file-type processing and one of the `sc.Add`
branches: not a walk error, not cancelled, not under the backup directory,
not excluded, metadata readable, not a socket, and its type-specific read
succeeded. -/
def entryVisited (env : RunEnv) (e : Entry) : Bool :=
  !e.walkErr && !e.ctxCancelled && !strStarts env.bp e.path &&
  !(env.excludes.any (fun ex => ex e.path)) && e.metaOK &&
  (match e.ftype with
   | .socket => false
   | .symlink => e.readlinkOK
   | .regular => e.openOK
   | _ => true)

/-- A visited entry whose fresh signature differs from the cached one. -/
def entryChanged (env : RunEnv) (e : Entry) : Bool :=
  entryVisited env e && !(cacheGet env.cache e.path == e.sig)

/-- A visited entry whose fresh signature equals the cached one (the code's
`bytes.Equal(currentSig.Bytes(), thisSig.Bytes())` test). -/
def entryUnchanged (env : RunEnv) (e : Entry) : Bool :=
  entryVisited env e && (cacheGet env.cache e.path == e.sig)

/-- The snapshot record a visited changed entry produces. -/
def entryRec (env : RunEnv) (e : Entry) : SnapRec :=
  if e.ftype = FType.symlink then
    (if cacheGet env.cache e.path = [] then ⟨e.path, 1, e.target⟩
     else ⟨e.path, 2, GenDelta (cacheGet env.cache e.path) e.target⟩)
  else if e.ftype = FType.regular then
    (if cacheGet env.cache e.path = [] then ⟨e.path, 1, e.content⟩
     else ⟨e.path, 2, GenDelta (cacheGet env.cache e.path) e.content⟩)
  else ⟨e.path, 0, []⟩

/-- Paths of the run considered unchanged since the last run. -/
def unchangedPaths (env : RunEnv) (entries : List Entry) : List String :=
  (entries.filter (fun e => entryUnchanged env e)).map Entry.path

/-! ### String prefix and suffix lemmas -/

theorem listStarts_append_self (l m : List Char) : listStarts l (l ++ m) = true := by
  induction l with
  | nil => rfl
  | cons a as ih => simp [listStarts, ih]

theorem strEnds_append (suf x : String) : strEnds suf (x ++ suf) = true := by
  unfold strEnds
  rw [String.data_append, List.reverse_append]
  exact listStarts_append_self _ _

theorem ne_of_strEnds {suf a b : String} (ha : strEnds suf a = true)
    (hb : strEnds suf b = false) : a ≠ b := by
  intro h; rw [h] at ha; rw [ha] at hb; cases hb

/-! ### Characterization of one walk-callback invocation -/

theorem withAdd_ok {st : WalkState} {p : String} {s : Bytes} {evs : List Ev}
    {rec? : Option SnapRec} {evs' : List Ev} {st' : WalkState}
    (h : withAdd st p s evs rec? = (evs', .ok st')) :
    evs' = evs ++ [Ev.writeF inprogName] ∧
    st' = ⟨st.recs ++ recsOf rec?, st.scAdds ++ [(p, s)],
           st.remaining.filter (fun q => q != p), st.skippedExcl⟩ ∧
    (st.scAdds.map Prod.fst).contains p = false := by
  unfold withAdd scAddE at h
  dsimp only at h
  by_cases hc : (st.scAdds.map Prod.fst).contains p = true
  · rw [if_pos hc] at h
    simp at h
  · rw [if_neg hc] at h
    simp at h
    obtain ⟨h1, h2⟩ := h
    refine ⟨h1.symm, ?_, by simpa using hc⟩
    rw [← h2]
    rfl

/-- The state a visited entry leaves behind: optional record appended,
`(path, sig)` recorded in the new cache, path dropped from the deletion
set. -/
def visitedOut (st : WalkState) (e : Entry) (rec? : Option SnapRec) : WalkState :=
  ⟨st.recs ++ recsOf rec?, st.scAdds ++ [(e.path, e.sig)],
   st.remaining.filter (fun q => q != e.path), st.skippedExcl⟩

theorem processDirLike_ok {env : RunEnv} {st : WalkState} {e : Entry} {cur : Bytes}
    {evs : List Ev} {st' : WalkState}
    (h : processDirLike env st e cur = (evs, .ok st')) :
    st' = visitedOut st e (if cur = e.sig then none else some ⟨e.path, 0, []⟩) ∧
    (st.scAdds.map Prod.fst).contains e.path = false := by
  unfold processDirLike at h
  by_cases hc : cur = e.sig
  · rw [if_pos hc] at h
    obtain ⟨h1, h2, h3⟩ := withAdd_ok h
    subst hc
    exact ⟨by simp [h2, visitedOut, recsOf, if_pos rfl], h3⟩
  · rw [if_neg hc] at h
    obtain ⟨h1, h2, h3⟩ := withAdd_ok h
    exact ⟨by simp [h2, visitedOut, recsOf, if_neg hc], h3⟩

/-- The snapshot record a visited changed symlink or regular file emits,
by cache state. -/
def dataRec (p : String) (cur : Bytes) (data : Bytes) : Option SnapRec :=
  if cur = [] then some ⟨p, 1, data⟩ else some ⟨p, 2, GenDelta cur data⟩

theorem processSymlink_ok {env : RunEnv} {st : WalkState} {e : Entry} {cur : Bytes}
    {evs : List Ev} {st' : WalkState}
    (h : processSymlink env st e cur = (evs, .ok st')) :
    e.readlinkOK = true ∧
    st' = visitedOut st e (if cur = e.sig then none else dataRec e.path cur e.target) ∧
    (st.scAdds.map Prod.fst).contains e.path = false := by
  unfold processSymlink at h
  by_cases hr : e.readlinkOK
  · rw [hr] at h
    simp only [Bool.not_true, Bool.false_eq_true, if_false] at h
    by_cases hc : cur = e.sig
    · rw [if_pos hc] at h
      obtain ⟨h1, h2, h3⟩ := withAdd_ok h
      subst hc
      exact ⟨hr, by simp [h2, visitedOut, recsOf, if_pos rfl], h3⟩
    · rw [if_neg hc] at h
      by_cases hn : cur = []
      · rw [if_pos hn] at h
        obtain ⟨h1, h2, h3⟩ := withAdd_ok h
        exact ⟨hr, by simp [h2, visitedOut, recsOf, dataRec, if_neg hc, if_pos hn], h3⟩
      · rw [if_neg hn] at h
        obtain ⟨h1, h2, h3⟩ := withAdd_ok h
        exact ⟨hr, by simp [h2, visitedOut, recsOf, dataRec, if_neg hc, if_neg hn], h3⟩
  · rw [Bool.not_eq_true] at hr
    rw [hr] at h
    simp at h

theorem processRegular_ok {env : RunEnv} {st : WalkState} {e : Entry} {cur : Bytes}
    {evs : List Ev} {st' : WalkState}
    (h : processRegular env st e cur = (evs, .ok st')) :
    (e.openOK = false → st' = st ∧ evs = []) ∧
    (e.openOK = true →
      st' = visitedOut st e (if cur = e.sig then none else dataRec e.path cur e.content) ∧
      (st.scAdds.map Prod.fst).contains e.path = false) := by
  unfold processRegular at h
  by_cases ho : e.openOK
  · rw [ho] at h
    simp only [Bool.not_true, Bool.false_eq_true, if_false] at h
    refine ⟨fun hcontra => (by rw [ho] at hcontra; cases hcontra), fun _ => ?_⟩
    by_cases hc : cur = e.sig
    · rw [if_pos hc] at h
      obtain ⟨h1, h2, h3⟩ := withAdd_ok h
      subst hc
      exact ⟨by simp [h2, visitedOut, recsOf, if_pos rfl], h3⟩
    · rw [if_neg hc] at h
      by_cases hn : cur = []
      · rw [if_neg (by simpa using hn : ¬ cur ≠ [])] at h
        match hfp : e.failPoint with
        | some .statF => rw [hfp] at h; simp at h
        | some .snapAdd => rw [hfp] at h; simp at h
        | none =>
          rw [hfp] at h; simp only [] at h
          obtain ⟨h1, h2, h3⟩ := withAdd_ok h
          exact ⟨by simp [h2, visitedOut, recsOf, dataRec, if_neg hc, if_pos hn], h3⟩
        | some .createTemp =>
          rw [hfp] at h; simp only [] at h
          obtain ⟨h1, h2, h3⟩ := withAdd_ok h
          exact ⟨by simp [h2, visitedOut, recsOf, dataRec, if_neg hc, if_pos hn], h3⟩
        | some .genDelta =>
          rw [hfp] at h; simp only [] at h
          obtain ⟨h1, h2, h3⟩ := withAdd_ok h
          exact ⟨by simp [h2, visitedOut, recsOf, dataRec, if_neg hc, if_pos hn], h3⟩
        | some .seekT =>
          rw [hfp] at h; simp only [] at h
          obtain ⟨h1, h2, h3⟩ := withAdd_ok h
          exact ⟨by simp [h2, visitedOut, recsOf, dataRec, if_neg hc, if_pos hn], h3⟩
      · rw [if_pos (by simpa using hn : cur ≠ [])] at h
        by_cases hsz : e.size > memoryLimit * 10
        · rw [if_pos hsz] at h
          match hfp : e.failPoint with
          | some .createTemp => rw [hfp] at h; simp at h
          | some .genDelta => rw [hfp] at h; simp at h
          | some .seekT => rw [hfp] at h; simp at h
          | some .statF => rw [hfp] at h; simp at h
          | some .snapAdd => rw [hfp] at h; simp at h
          | none =>
            rw [hfp] at h; simp only [] at h
            obtain ⟨h1, h2, h3⟩ := withAdd_ok h
            exact ⟨by simp [h2, visitedOut, recsOf, dataRec, if_neg hc, if_neg hn], h3⟩
        · rw [if_neg hsz] at h
          match hfp : e.failPoint with
          | some .genDelta => rw [hfp] at h; simp at h
          | some .snapAdd => rw [hfp] at h; simp at h
          | none =>
            rw [hfp] at h; simp only [] at h
            obtain ⟨h1, h2, h3⟩ := withAdd_ok h
            exact ⟨by simp [h2, visitedOut, recsOf, dataRec, if_neg hc, if_neg hn], h3⟩
          | some .createTemp =>
            rw [hfp] at h; simp only [] at h
            obtain ⟨h1, h2, h3⟩ := withAdd_ok h
            exact ⟨by simp [h2, visitedOut, recsOf, dataRec, if_neg hc, if_neg hn], h3⟩
          | some .seekT =>
            rw [hfp] at h; simp only [] at h
            obtain ⟨h1, h2, h3⟩ := withAdd_ok h
            exact ⟨by simp [h2, visitedOut, recsOf, dataRec, if_neg hc, if_neg hn], h3⟩
          | some .statF =>
            rw [hfp] at h; simp only [] at h
            obtain ⟨h1, h2, h3⟩ := withAdd_ok h
            exact ⟨by simp [h2, visitedOut, recsOf, dataRec, if_neg hc, if_neg hn], h3⟩
  · rw [Bool.not_eq_true] at ho
    rw [ho] at h
    simp only [Bool.not_false, if_pos] at h
    refine ⟨fun _ => ?_, fun hcontra => (by rw [ho] at hcontra; cases hcontra)⟩
    cases h
    exact ⟨rfl, rfl⟩

theorem processEntry_walkErr {env : RunEnv} {st : WalkState} {e : Entry}
    (hw : e.walkErr = true) : processEntry env st e = ([], .ok st) := by
  unfold processEntry
  rw [if_pos hw]

theorem processEntry_cancelled {env : RunEnv} {st : WalkState} {e : Entry}
    (hw : e.walkErr = false) (hc : e.ctxCancelled = true) :
    processEntry env st e = ([], .error .cancelled) := by
  unfold processEntry
  rw [if_neg (by simp [hw]), if_pos hc]

theorem processEntry_prefixSkip {env : RunEnv} {st : WalkState} {e : Entry}
    (hw : e.walkErr = false) (hc : e.ctxCancelled = false)
    (hp : strStarts env.bp e.path = true) :
    processEntry env st e = ([], .ok st) := by
  unfold processEntry
  rw [if_neg (by simp [hw]), if_neg (by simp [hc]), if_pos hp]

theorem processEntry_openFail {env : RunEnv} {st : WalkState} {e : Entry}
    (hw : e.walkErr = false) (hc : e.ctxCancelled = false)
    (hp : strStarts env.bp e.path = false)
    (hx : env.excludes.any (fun ex => ex e.path) = false)
    (hm : e.metaOK = true) (hf : e.ftype = FType.regular) (ho : e.openOK = false) :
    processEntry env st e = ([], .ok st) := by
  unfold processEntry
  rw [if_neg (by simp [hw]), if_neg (by simp [hc]), if_neg (by simp [hp]),
     if_neg (by simp [hx]), if_neg (by simp [hm]), hf]
  unfold processRegular
  rw [ho]
  rfl

theorem processEntry_readlinkFail {env : RunEnv} {st : WalkState} {e : Entry}
    (hw : e.walkErr = false) (hc : e.ctxCancelled = false)
    (hp : strStarts env.bp e.path = false)
    (hx : env.excludes.any (fun ex => ex e.path) = false)
    (hm : e.metaOK = true) (hf : e.ftype = FType.symlink) (hr : e.readlinkOK = false) :
    processEntry env st e = ([], .error .readlinkErr) := by
  unfold processEntry
  rw [if_neg (by simp [hw]), if_neg (by simp [hc]), if_neg (by simp [hp]),
     if_neg (by simp [hx]), if_neg (by simp [hm]), hf]
  unfold processSymlink
  rw [hr]
  rfl

theorem visitedOut_spec {env : RunEnv} {st : WalkState} {e : Entry}
    (rec? : Option SnapRec) (hv : entryVisited env e = true)
    (hrec : recsOf rec? = (if entryChanged env e then [entryRec env e] else [])) :
    (visitedOut st e rec?).recs =
      st.recs ++ (if entryChanged env e then [entryRec env e] else []) ∧
    (visitedOut st e rec?).scAdds =
      st.scAdds ++ (if entryVisited env e then [(e.path, e.sig)] else []) ∧
    (visitedOut st e rec?).remaining = (if entryVisited env e then
      st.remaining.filter (fun q => q != e.path) else st.remaining) := by
  simp [visitedOut, hv, hrec]

/-- What a successfully processed entry does to the walk state, stated by
the reference predicates `entryVisited`, `entryChanged`, `entryRec`. -/
theorem processEntry_ok {env : RunEnv} {st : WalkState} {e : Entry}
    {evs : List Ev} {st' : WalkState}
    (h : processEntry env st e = (evs, .ok st')) :
    st'.recs = st.recs ++ (if entryChanged env e then [entryRec env e] else []) ∧
    st'.scAdds = st.scAdds ++ (if entryVisited env e then [(e.path, e.sig)] else []) ∧
    st'.remaining = (if entryVisited env e then
      st.remaining.filter (fun q => q != e.path) else st.remaining) ∧
    (entryVisited env e = true → (st.scAdds.map Prod.fst).contains e.path = false) := by
  unfold processEntry at h
  by_cases hw : e.walkErr
  · rw [if_pos hw] at h
    simp only [Prod.mk.injEq, Except.ok.injEq] at h
    have hv : entryVisited env e = false := by simp [entryVisited, hw]
    simp [hv, entryChanged, ← h.2]
  · rw [if_neg hw] at h
    rw [Bool.not_eq_true] at hw
    by_cases hc : e.ctxCancelled
    · rw [if_pos hc] at h
      simp at h
    · rw [if_neg hc] at h
      rw [Bool.not_eq_true] at hc
      by_cases hp : strStarts env.bp e.path
      · rw [if_pos hp] at h
        simp only [Prod.mk.injEq, Except.ok.injEq] at h
        have hv : entryVisited env e = false := by simp [entryVisited, hp]
        simp [hv, entryChanged, ← h.2]
      · rw [if_neg hp] at h
        rw [Bool.not_eq_true] at hp
        by_cases hx : env.excludes.any (fun ex => ex e.path)
        · rw [if_pos hx] at h
          simp only [Prod.mk.injEq, Except.ok.injEq] at h
          have hv : entryVisited env e = false := by simp [entryVisited, hx]
          simp [hv, entryChanged, ← h.2]
        · rw [if_neg hx] at h
          rw [Bool.not_eq_true] at hx
          by_cases hm : e.metaOK
          · rw [if_neg (by simp [hm])] at h
            have hv0 : entryVisited env e =
                (match e.ftype with
                 | FType.socket => false
                 | FType.symlink => e.readlinkOK
                 | FType.regular => e.openOK
                 | _ => true) := by
              simp [entryVisited, hw, hc, hp, hx, hm]
            cases hft : e.ftype with
            | socket =>
              rw [hft] at h
              simp only [Prod.mk.injEq, Except.ok.injEq] at h
              have hv : entryVisited env e = false := by rw [hv0, hft]
              simp [hv, entryChanged, ← h.2]
            | symlink =>
              rw [hft] at h
              obtain ⟨hr, hst, hcontains⟩ := processSymlink_ok h
              have hv : entryVisited env e = true := by rw [hv0, hft]; exact hr
              have hch : entryChanged env e = !(cacheGet env.cache e.path == e.sig) := by
                simp [entryChanged, hv]
              have hrec : recsOf (if cacheGet env.cache e.path = e.sig then none
                  else dataRec e.path (cacheGet env.cache e.path) e.target) =
                  (if entryChanged env e then [entryRec env e] else []) := by
                by_cases hcur : cacheGet env.cache e.path = e.sig
                · simp [hcur, recsOf, hch]
                · by_cases hnil : cacheGet env.cache e.path = []
                  · have hsig : ¬ e.sig = [] := fun hh => hcur (by rw [hnil, hh])
                    simp [hcur, hnil, hsig, recsOf, dataRec, hch, entryRec, hft]
                  · simp [hcur, hnil, recsOf, dataRec, hch, entryRec, hft]
              subst hst
              exact ⟨(visitedOut_spec _ hv hrec).1, (visitedOut_spec _ hv hrec).2.1,
                (visitedOut_spec _ hv hrec).2.2, fun _ => hcontains⟩
            | regular =>
              rw [hft] at h
              obtain ⟨hno, hyes⟩ := processRegular_ok h
              by_cases ho : e.openOK
              · obtain ⟨hst, hcontains⟩ := hyes ho
                have hv : entryVisited env e = true := by rw [hv0, hft]; exact ho
                have hch : entryChanged env e = !(cacheGet env.cache e.path == e.sig) := by
                  simp [entryChanged, hv]
                have hrec : recsOf (if cacheGet env.cache e.path = e.sig then none
                    else dataRec e.path (cacheGet env.cache e.path) e.content) =
                    (if entryChanged env e then [entryRec env e] else []) := by
                  by_cases hcur : cacheGet env.cache e.path = e.sig
                  · simp [hcur, recsOf, hch]
                  · by_cases hnil : cacheGet env.cache e.path = []
                    · have hsig : ¬ e.sig = [] := fun hh => hcur (by rw [hnil, hh])
                      simp [hcur, hnil, hsig, recsOf, dataRec, hch, entryRec, hft]
                    · simp [hcur, hnil, recsOf, dataRec, hch, entryRec, hft]
                subst hst
                exact ⟨(visitedOut_spec _ hv hrec).1, (visitedOut_spec _ hv hrec).2.1,
                  (visitedOut_spec _ hv hrec).2.2, fun _ => hcontains⟩
              · rw [Bool.not_eq_true] at ho
                obtain ⟨hst, _⟩ := hno ho
                have hv : entryVisited env e = false := by rw [hv0, hft]; exact ho
                subst hst
                simp [hv, entryChanged]
            | charDev =>
              rw [hft] at h
              obtain ⟨hst, hcontains⟩ := processDirLike_ok h
              have hv : entryVisited env e = true := by rw [hv0, hft]
              have hch : entryChanged env e = !(cacheGet env.cache e.path == e.sig) := by
                simp [entryChanged, hv]
              have hrec : recsOf (if cacheGet env.cache e.path = e.sig then none
                  else some ⟨e.path, 0, []⟩) =
                  (if entryChanged env e then [entryRec env e] else []) := by
                by_cases hcur : cacheGet env.cache e.path = e.sig
                · simp [hcur, recsOf, hch]
                · simp [hcur, recsOf, hch, entryRec, hft]
              subst hst
              exact ⟨(visitedOut_spec _ hv hrec).1, (visitedOut_spec _ hv hrec).2.1,
                (visitedOut_spec _ hv hrec).2.2, fun _ => hcontains⟩
            | blockDev =>
              rw [hft] at h
              obtain ⟨hst, hcontains⟩ := processDirLike_ok h
              have hv : entryVisited env e = true := by rw [hv0, hft]
              have hch : entryChanged env e = !(cacheGet env.cache e.path == e.sig) := by
                simp [entryChanged, hv]
              have hrec : recsOf (if cacheGet env.cache e.path = e.sig then none
                  else some ⟨e.path, 0, []⟩) =
                  (if entryChanged env e then [entryRec env e] else []) := by
                by_cases hcur : cacheGet env.cache e.path = e.sig
                · simp [hcur, recsOf, hch]
                · simp [hcur, recsOf, hch, entryRec, hft]
              subst hst
              exact ⟨(visitedOut_spec _ hv hrec).1, (visitedOut_spec _ hv hrec).2.1,
                (visitedOut_spec _ hv hrec).2.2, fun _ => hcontains⟩
            | fifo =>
              rw [hft] at h
              obtain ⟨hst, hcontains⟩ := processDirLike_ok h
              have hv : entryVisited env e = true := by rw [hv0, hft]
              have hch : entryChanged env e = !(cacheGet env.cache e.path == e.sig) := by
                simp [entryChanged, hv]
              have hrec : recsOf (if cacheGet env.cache e.path = e.sig then none
                  else some ⟨e.path, 0, []⟩) =
                  (if entryChanged env e then [entryRec env e] else []) := by
                by_cases hcur : cacheGet env.cache e.path = e.sig
                · simp [hcur, recsOf, hch]
                · simp [hcur, recsOf, hch, entryRec, hft]
              subst hst
              exact ⟨(visitedOut_spec _ hv hrec).1, (visitedOut_spec _ hv hrec).2.1,
                (visitedOut_spec _ hv hrec).2.2, fun _ => hcontains⟩
            | dir =>
              rw [hft] at h
              obtain ⟨hst, hcontains⟩ := processDirLike_ok h
              have hv : entryVisited env e = true := by rw [hv0, hft]
              have hch : entryChanged env e = !(cacheGet env.cache e.path == e.sig) := by
                simp [entryChanged, hv]
              have hrec : recsOf (if cacheGet env.cache e.path = e.sig then none
                  else some ⟨e.path, 0, []⟩) =
                  (if entryChanged env e then [entryRec env e] else []) := by
                by_cases hcur : cacheGet env.cache e.path = e.sig
                · simp [hcur, recsOf, hch]
                · simp [hcur, recsOf, hch, entryRec, hft]
              subst hst
              exact ⟨(visitedOut_spec _ hv hrec).1, (visitedOut_spec _ hv hrec).2.1,
                (visitedOut_spec _ hv hrec).2.2, fun _ => hcontains⟩
          · rw [if_pos (by simp [Bool.not_eq_true] at hm; simp [hm])] at h
            simp at h

/-! ### Walk-level characterization -/

/-- The deletion set left after processing a list of entries. -/
def remainingAfter (env : RunEnv) (entries : List Entry) (rem : List String) :
    List String :=
  match entries with
  | [] => rem
  | e :: es => remainingAfter env es
      (if entryVisited env e then rem.filter (fun q => q != e.path) else rem)

theorem remainingAfter_cons (env : RunEnv) (e : Entry) (es : List Entry)
    (rem : List String) :
    remainingAfter env (e :: es) rem = remainingAfter env es
      (if entryVisited env e then rem.filter (fun q => q != e.path) else rem) := rfl

theorem mem_remainingAfter {env : RunEnv} {p : String} :
    ∀ {entries : List Entry} {rem : List String},
    (p ∈ remainingAfter env entries rem ↔
      p ∈ rem ∧ ∀ e ∈ entries, entryVisited env e = true → e.path ≠ p)
  | [], rem => by simp [remainingAfter]
  | e :: es, rem => by
    rw [remainingAfter_cons, @mem_remainingAfter _ _ es]
    simp only [List.mem_cons]
    by_cases hv : entryVisited env e
    · rw [if_pos hv]
      simp only [List.mem_filter, bne_iff_ne]
      constructor
      · rintro ⟨⟨hm, hne⟩, hrest⟩
        refine ⟨hm, fun e' he' hv' => ?_⟩
        rcases he' with rfl | he'
        · exact fun hh => hne hh.symm
        · exact hrest e' he' hv'
      · rintro ⟨hm, hall⟩
        exact ⟨⟨hm, fun hh => hall e (Or.inl rfl) hv hh.symm⟩,
          fun e' he' hv' => hall e' (Or.inr he') hv'⟩
    · rw [if_neg hv]
      rw [Bool.not_eq_true] at hv
      constructor
      · rintro ⟨hm, hrest⟩
        refine ⟨hm, fun e' he' hv' => ?_⟩
        rcases he' with rfl | he'
        · rw [hv'] at hv; cases hv
        · exact hrest e' he' hv'
      · rintro ⟨hm, hall⟩
        exact ⟨hm, fun e' he' hv' => hall e' (Or.inr he') hv'⟩

theorem runWalk_ok {env : RunEnv} :
    ∀ {entries : List Entry} {st : WalkState} {evs : List Ev} {st' : WalkState},
    runWalk env st entries = (evs, st', none) →
    st'.recs = st.recs ++
      (entries.filter (fun e => entryChanged env e)).map (entryRec env) ∧
    st'.scAdds = st.scAdds ++
      (entries.filter (fun e => entryVisited env e)).map (fun e => (e.path, e.sig)) ∧
    st'.remaining = remainingAfter env entries st.remaining ∧
    ((st.scAdds.map Prod.fst).Nodup → (st'.scAdds.map Prod.fst).Nodup)
  | [], st, evs, st' => by
    intro h
    unfold runWalk at h
    simp only [Prod.mk.injEq] at h
    obtain ⟨-, h2, -⟩ := h
    subst h2
    simp [remainingAfter]
  | e :: es, st, evs, st' => by
    intro h
    unfold runWalk at h
    cases hpe : processEntry env st e with
    | mk evs1 r =>
      rw [hpe] at h
      cases r with
      | error k => simp at h
      | ok st1 =>
        simp only [] at h
        cases hrw : runWalk env st1 es with
        | mk evs2 rest =>
          cases rest with
          | mk st2 r2 =>
            rw [hrw] at h
            simp only [Prod.mk.injEq] at h
            obtain ⟨-, hst, hr2⟩ := h
            subst hst
            subst hr2
            obtain ⟨ih1, ih2, ih3, ih4⟩ := runWalk_ok hrw
            obtain ⟨p1, p2, p3, p4⟩ := processEntry_ok hpe
            refine ⟨?_, ?_, ?_, ?_⟩
            · rw [ih1, p1, List.filter_cons]
              by_cases hch : entryChanged env e
              · simp [hch]
              · simp [hch]
            · rw [ih2, p2, List.filter_cons]
              by_cases hv : entryVisited env e
              · simp [hv]
              · simp [hv]
            · rw [ih3, p3]
              exact (remainingAfter_cons env e es st.remaining).symm
            · intro hnd
              apply ih4
              rw [p2]
              by_cases hv : entryVisited env e
              · have hcf := p4 hv
                simp only [if_pos hv, List.map_append]
                rw [List.nodup_append]
                refine ⟨hnd, by simp, ?_⟩
                intro a ha hb
                simp only [List.map_cons, List.map_nil, List.mem_singleton] at hb
                subst hb
                rw [List.contains_eq_any_beq, List.any_eq_false] at hcf
                exact (hcf _ ha) (by simp)
              · simp [hv, hnd]

/-! ### Shape of the events emitted during the walk -/

/-- Events the walk callback may emit: snapshot writes, in-progress cache
writes, and temp-delta-file operations. -/
def isWalkEv (env : RunEnv) (ev : Ev) : Bool :=
  ev == Ev.writeF env.snapName || ev == Ev.writeF inprogName ||
  ev == Ev.createF (tmpName env) || ev == Ev.writeF (tmpName env) ||
  ev == Ev.closeF (tmpName env) || ev == Ev.removeF (tmpName env)

theorem withAdd_evs {st : WalkState} {p : String} {s : Bytes} {preEvs : List Ev}
    {rec? : Option SnapRec} {ev : Ev}
    (h : ev ∈ (withAdd st p s preEvs rec?).1) :
    ev ∈ preEvs ∨ ev = Ev.writeF inprogName := by
  unfold withAdd scAddE at h
  dsimp only at h
  by_cases hc : (st.scAdds.map Prod.fst).contains p = true
  · rw [if_pos hc] at h
    exact Or.inl h
  · rw [if_neg hc] at h
    simp only [List.mem_append, List.mem_singleton] at h
    exact h

theorem processDirLike_evs {env : RunEnv} {st : WalkState} {e : Entry}
    {cur : Bytes} {ev : Ev} (h : ev ∈ (processDirLike env st e cur).1) :
    isWalkEv env ev = true := by
  unfold processDirLike at h
  by_cases hc : cur = e.sig
  · rw [if_pos hc] at h
    rcases withAdd_evs h with h | h
    · simp at h
    · subst h; simp [isWalkEv]
  · rw [if_neg hc] at h
    rcases withAdd_evs h with h | h
    · simp only [List.mem_singleton] at h; subst h; simp [isWalkEv]
    · subst h; simp [isWalkEv]

theorem processSymlink_evs {env : RunEnv} {st : WalkState} {e : Entry}
    {cur : Bytes} {ev : Ev} (h : ev ∈ (processSymlink env st e cur).1) :
    isWalkEv env ev = true := by
  unfold processSymlink at h
  by_cases hr : e.readlinkOK
  · rw [hr] at h
    simp only [Bool.not_true, Bool.false_eq_true, if_false] at h
    by_cases hc : cur = e.sig
    · rw [if_pos hc] at h
      rcases withAdd_evs h with h | h
      · simp at h
      · subst h; simp [isWalkEv]
    · rw [if_neg hc] at h
      by_cases hn : cur = []
      · rw [if_pos hn] at h
        rcases withAdd_evs h with h | h
        · simp only [List.mem_singleton] at h; subst h; simp [isWalkEv]
        · subst h; simp [isWalkEv]
      · rw [if_neg hn] at h
        rcases withAdd_evs h with h | h
        · simp only [List.mem_singleton] at h; subst h; simp [isWalkEv]
        · subst h; simp [isWalkEv]
  · rw [Bool.not_eq_true] at hr
    rw [hr] at h
    simp at h

theorem processRegular_evs {env : RunEnv} {st : WalkState} {e : Entry}
    {cur : Bytes} {ev : Ev} (h : ev ∈ (processRegular env st e cur).1) :
    isWalkEv env ev = true := by
  unfold processRegular at h
  by_cases ho : e.openOK
  · rw [ho] at h
    simp only [Bool.not_true, Bool.false_eq_true, if_false] at h
    by_cases hc : cur = e.sig
    · rw [if_pos hc] at h
      rcases withAdd_evs h with h | h
      · simp at h
      · subst h; simp [isWalkEv]
    · rw [if_neg hc] at h
      by_cases hn : cur = []
      · rw [if_neg (by simpa using hn : ¬ cur ≠ [])] at h
        match hfp : e.failPoint with
        | some .statF => rw [hfp] at h; simp at h
        | some .snapAdd => rw [hfp] at h; simp at h
        | none =>
          rw [hfp] at h
          rcases withAdd_evs h with h | h
          · simp only [List.mem_singleton] at h; subst h; simp [isWalkEv]
          · subst h; simp [isWalkEv]
        | some .createTemp =>
          rw [hfp] at h
          rcases withAdd_evs h with h | h
          · simp only [List.mem_singleton] at h; subst h; simp [isWalkEv]
          · subst h; simp [isWalkEv]
        | some .genDelta =>
          rw [hfp] at h
          rcases withAdd_evs h with h | h
          · simp only [List.mem_singleton] at h; subst h; simp [isWalkEv]
          · subst h; simp [isWalkEv]
        | some .seekT =>
          rw [hfp] at h
          rcases withAdd_evs h with h | h
          · simp only [List.mem_singleton] at h; subst h; simp [isWalkEv]
          · subst h; simp [isWalkEv]
      · rw [if_pos (by simpa using hn : cur ≠ [])] at h
        by_cases hsz : e.size > memoryLimit * 10
        · rw [if_pos hsz] at h
          match hfp : e.failPoint with
          | some .createTemp => rw [hfp] at h; simp at h
          | some .genDelta =>
            rw [hfp] at h
            simp only [List.mem_cons, List.not_mem_nil, or_false] at h
            rcases h with rfl | rfl | rfl <;> simp [isWalkEv]
          | some .seekT =>
            rw [hfp] at h
            simp only [List.mem_cons, List.not_mem_nil, or_false] at h
            rcases h with rfl | rfl | rfl | rfl <;> simp [isWalkEv]
          | some .statF =>
            rw [hfp] at h
            simp only [List.mem_cons, List.not_mem_nil, or_false] at h
            rcases h with rfl | rfl | rfl | rfl <;> simp [isWalkEv]
          | some .snapAdd =>
            rw [hfp] at h
            simp only [List.mem_cons, List.not_mem_nil, or_false] at h
            rcases h with rfl | rfl | rfl | rfl <;> simp [isWalkEv]
          | none =>
            rw [hfp] at h
            rcases withAdd_evs h with h | h
            · simp only [List.mem_cons, List.not_mem_nil, or_false] at h
              rcases h with rfl | rfl | rfl | rfl | rfl <;> simp [isWalkEv]
            · subst h; simp [isWalkEv]
        · rw [if_neg hsz] at h
          match hfp : e.failPoint with
          | some .genDelta => rw [hfp] at h; simp at h
          | some .snapAdd => rw [hfp] at h; simp at h
          | none =>
            rw [hfp] at h
            rcases withAdd_evs h with h | h
            · simp only [List.mem_singleton] at h; subst h; simp [isWalkEv]
            · subst h; simp [isWalkEv]
          | some .createTemp =>
            rw [hfp] at h
            rcases withAdd_evs h with h | h
            · simp only [List.mem_singleton] at h; subst h; simp [isWalkEv]
            · subst h; simp [isWalkEv]
          | some .seekT =>
            rw [hfp] at h
            rcases withAdd_evs h with h | h
            · simp only [List.mem_singleton] at h; subst h; simp [isWalkEv]
            · subst h; simp [isWalkEv]
          | some .statF =>
            rw [hfp] at h
            rcases withAdd_evs h with h | h
            · simp only [List.mem_singleton] at h; subst h; simp [isWalkEv]
            · subst h; simp [isWalkEv]
  · rw [Bool.not_eq_true] at ho
    rw [ho] at h
    simp at h

theorem processEntry_evs {env : RunEnv} {st : WalkState} {e : Entry} {ev : Ev}
    (h : ev ∈ (processEntry env st e).1) : isWalkEv env ev = true := by
  unfold processEntry at h
  by_cases hw : e.walkErr
  · rw [if_pos hw] at h; simp at h
  · rw [if_neg hw] at h
    by_cases hc : e.ctxCancelled
    · rw [if_pos hc] at h; simp at h
    · rw [if_neg hc] at h
      by_cases hp : strStarts env.bp e.path
      · rw [if_pos hp] at h; simp at h
      · rw [if_neg hp] at h
        by_cases hx : env.excludes.any (fun ex => ex e.path)
        · rw [if_pos hx] at h; simp at h
        · rw [if_neg hx] at h
          by_cases hm : e.metaOK
          · rw [if_neg (by simp [hm])] at h
            cases hft : e.ftype with
            | socket => rw [hft] at h; simp at h
            | symlink => rw [hft] at h; exact processSymlink_evs h
            | regular => rw [hft] at h; exact processRegular_evs h
            | charDev => rw [hft] at h; exact processDirLike_evs h
            | blockDev => rw [hft] at h; exact processDirLike_evs h
            | fifo => rw [hft] at h; exact processDirLike_evs h
            | dir => rw [hft] at h; exact processDirLike_evs h
          · rw [if_pos (by simp [Bool.not_eq_true] at hm; simp [hm])] at h
            simp at h

theorem runWalk_evs {env : RunEnv} :
    ∀ {entries : List Entry} {st : WalkState} {evs : List Ev} {st' : WalkState}
    {r : Option EKind}, runWalk env st entries = (evs, st', r) →
    ∀ ev ∈ evs, isWalkEv env ev = true
  | [], st, evs, st', r => by
    intro h ev hev
    unfold runWalk at h
    simp only [Prod.mk.injEq] at h
    rw [← h.1] at hev
    simp at hev
  | e :: es, st, evs, st', r => by
    intro h ev hev
    unfold runWalk at h
    cases hpe : processEntry env st e with
    | mk evs1 rr =>
      rw [hpe] at h
      cases rr with
      | error k =>
        simp only [Prod.mk.injEq] at h
        rw [← h.1] at hev
        exact processEntry_evs (by rw [hpe]; exact hev)
      | ok st1 =>
        simp only [] at h
        cases hrw : runWalk env st1 es with
        | mk evs2 rest =>
          rw [hrw] at h
          simp only [Prod.mk.injEq] at h
          rw [← h.1] at hev
          rcases List.mem_append.mp hev with hev | hev
          · exact processEntry_evs (by rw [hpe]; exact hev)
          · exact runWalk_evs hrw ev hev

/-! ### Events touching the committed cache file -/

/-- Whether an event changes the contents of the file named `f` (a chown
changes only ownership, reads and closes change nothing). -/
def mutatesF (ev : Ev) (f : String) : Bool :=
  match ev with
  | .createF n => n == f
  | .writeF n => n == f
  | .removeF n => n == f
  | .renameF s d => s == f || d == f
  | _ => false

theorem snapName_gz (cfg : Config) (prev : Option PrevCache) (stem : String) :
    strEnds ".gz.enc" (runEnvOf cfg prev stem).snapName = true := by
  simp only [runEnvOf]
  exact strEnds_append _ _

theorem sig_not_gz : strEnds ".gz.enc" sigCacheName = false := by decide

theorem inprog_not_gz : strEnds ".gz.enc" inprogName = false := by decide

theorem tmpName_delta (env : RunEnv) : strEnds "/delta" (tmpName env) = true :=
  strEnds_append _ _

theorem sig_not_delta : strEnds "/delta" sigCacheName = false := by decide

theorem snapName_ne_sig (cfg : Config) (prev : Option PrevCache) (stem : String) :
    (runEnvOf cfg prev stem).snapName ≠ sigCacheName :=
  ne_of_strEnds (snapName_gz cfg prev stem) sig_not_gz

theorem tmpName_ne_sig (env : RunEnv) : tmpName env ≠ sigCacheName :=
  ne_of_strEnds (tmpName_delta env) sig_not_delta

theorem walkEv_no_sig {env : RunEnv} {ev : Ev} (h : isWalkEv env ev = true)
    (hsnap : env.snapName ≠ sigCacheName) :
    mutatesF ev sigCacheName = false ∧ ∀ a b, ev ≠ Ev.renameF a b := by
  unfold isWalkEv at h
  simp only [Bool.or_eq_true, beq_iff_eq] at h
  have htmp := tmpName_ne_sig env
  have hip : inprogName ≠ sigCacheName := by decide
  rcases h with ((((h | h) | h) | h) | h) | h <;> subst h <;>
    simp [mutatesF, hsnap, htmp, hip]

theorem rmEvsOf_no_sig {cfg : Config} {prev : Option PrevCache}
    {initFiles : List String} {ev : Ev} (h : ev ∈ rmEvsOf cfg prev initFiles) :
    mutatesF ev sigCacheName = false ∧ ∀ a b, ev ≠ Ev.renameF a b := by
  unfold rmEvsOf at h
  by_cases h0 : incOf cfg prev = 0
  · rw [if_pos h0] at h
    by_cases hd : cfg.dryRun
    · rw [if_pos hd] at h; simp at h
    · rw [if_neg hd] at h
      simp only [List.mem_map, List.mem_filter] at h
      obtain ⟨n, ⟨-, hgz⟩, rfl⟩ := h
      have : n ≠ sigCacheName := ne_of_strEnds hgz sig_not_gz
      simp [mutatesF, this]
  · rw [if_neg h0] at h; simp at h

theorem preTrace_no_sig {cfg : Config} {prev : Option PrevCache} {stem : String}
    {initFiles : List String} {ev : Ev}
    (h : ev ∈ preTraceOf cfg prev stem initFiles) :
    mutatesF ev sigCacheName = false ∧ ∀ a b, ev ≠ Ev.renameF a b := by
  unfold preTraceOf at h
  simp only [List.mem_append, List.mem_cons, List.not_mem_nil, or_false] at h
  rcases h with (h | h) | h
  · rcases h with h | h
    · subst h; simp [mutatesF]
    · subst h; simp [mutatesF]; decide
  · exact rmEvsOf_no_sig h
  · subst h
    simp [mutatesF, snapName_ne_sig cfg prev stem]

theorem errTail_no_sig {cfg : Config} {prev : Option PrevCache} {stem : String}
    {ev : Ev} (h : ev ∈ errTailOf (runEnvOf cfg prev stem)) :
    mutatesF ev sigCacheName = false ∧ ∀ a b, ev ≠ Ev.renameF a b := by
  unfold errTailOf at h
  simp only [List.mem_cons, List.not_mem_nil, or_false] at h
  rcases h with h | h <;> subst h <;>
    simp [mutatesF, snapName_ne_sig cfg prev stem]

/-- C2: during a run the only content mutation of `sig.cache` is the single
rename of `sig.cache.inprogress` over it, performed only after the
snapshot and the new cache were both closed, and performed exactly when the
run succeeds; everything else written during the run goes to other files
(`sig.cache.inprogress`, the snapshot, temp delta files). -/
theorem c2_cache_commit_atomic (cfg : Config) (prev : Option PrevCache)
    (stem : String) (now : Int) (initFiles : List String) (entries : List Entry) :
    (∀ ev ∈ (backupRun cfg prev stem now initFiles entries).trace,
        mutatesF ev sigCacheName = true →
        ev = Ev.renameF inprogName sigCacheName) ∧
    (backupRun cfg prev stem now initFiles entries).trace.count
        (Ev.renameF inprogName sigCacheName) ≤ 1 ∧
    ((backupRun cfg prev stem now initFiles entries).err = none →
      ∃ l₁ l₂, (backupRun cfg prev stem now initFiles entries).trace =
          l₁ ++ Ev.renameF inprogName sigCacheName :: l₂ ∧
        Ev.closeF (backupRun cfg prev stem now initFiles entries).snapName ∈ l₁ ∧
        Ev.closeF inprogName ∈ l₁ ∧
        ∀ ev ∈ l₂, mutatesF ev sigCacheName = false) ∧
    ((Ev.renameF inprogName sigCacheName ∈
        (backupRun cfg prev stem now initFiles entries).trace) ↔
      (backupRun cfg prev stem now initFiles entries).err = none) := by
  unfold backupRun
  cases hrw : runWalk (runEnvOf cfg prev stem) (st0Of (runEnvOf cfg prev stem))
      entries with
  | mk wEvs rest =>
    cases rest with
    | mk stw r =>
      have hwalk : ∀ ev ∈ wEvs, isWalkEv (runEnvOf cfg prev stem) ev = true :=
        runWalk_evs hrw
      have hwalk' : ∀ ev ∈ wEvs,
          mutatesF ev sigCacheName = false ∧ ∀ a b, ev ≠ Ev.renameF a b :=
        fun ev hev => walkEv_no_sig (hwalk ev hev) (snapName_ne_sig cfg prev stem)
      cases r with
      | some k =>
        simp only []
        have hnomem : Ev.renameF inprogName sigCacheName ∉
            preTraceOf cfg prev stem initFiles ++ wEvs ++
              errTailOf (runEnvOf cfg prev stem) := by
          intro hmem
          rcases List.mem_append.mp hmem with hmem | hmem
          · rcases List.mem_append.mp hmem with hmem | hmem
            · exact (preTrace_no_sig hmem).2 _ _ rfl
            · exact (hwalk' _ hmem).2 _ _ rfl
          · exact (errTail_no_sig hmem).2 _ _ rfl
        refine ⟨?_, ?_, ?_, ?_⟩
        · intro ev hev hmut
          rcases List.mem_append.mp hev with hev | hev
          · rcases List.mem_append.mp hev with hev | hev
            · rw [(preTrace_no_sig hev).1] at hmut; cases hmut
            · rw [(hwalk' _ hev).1] at hmut; cases hmut
          · rw [(errTail_no_sig hev).1] at hmut; cases hmut
        · rw [List.count_eq_zero.mpr hnomem]
          exact Nat.zero_le 1
        · intro hh; cases hh
        · constructor
          · intro hmem; exact absurd hmem hnomem
          · intro hh; cases hh
      | none =>
        simp only []
        refine ⟨?_, ?_, ?_, ?_⟩
        · intro ev hev hmut
          rcases List.mem_append.mp hev with hev | hev
          · rcases List.mem_append.mp hev with hev | hev
            · rw [(preTrace_no_sig hev).1] at hmut; cases hmut
            · rw [(hwalk' _ hev).1] at hmut; cases hmut
          · unfold okTailOf at hev
            rcases List.mem_append.mp hev with hev | hev
            · rcases List.mem_append.mp hev with hev | hev
              · rcases List.mem_map.mp hev with ⟨p, -, rfl⟩
                exfalso
                have := snapName_ne_sig cfg prev stem
                simp [mutatesF, this] at hmut
              · rcases List.mem_append.mp hev with hev | hev
                · simp only [List.mem_cons, List.not_mem_nil, or_false] at hev
                  rcases hev with rfl | rfl <;> simp [mutatesF] at hmut
                · by_cases hf : freshRun cfg prev
                  · rw [if_pos hf] at hev; simp at hev
                  · rw [if_neg hf] at hev
                    simp only [List.mem_singleton] at hev
                    subst hev
                    simp [mutatesF] at hmut
            · simp only [List.mem_cons, List.not_mem_nil, or_false] at hev
              rcases hev with rfl | rfl
              · rfl
              · simp [mutatesF] at hmut
        · rw [List.count_append, List.count_append]
          have h1 : (preTraceOf cfg prev stem initFiles).count
              (Ev.renameF inprogName sigCacheName) = 0 :=
            List.count_eq_zero.mpr (fun hmem => (preTrace_no_sig hmem).2 _ _ rfl)
          have h2 : wEvs.count (Ev.renameF inprogName sigCacheName) = 0 :=
            List.count_eq_zero.mpr (fun hmem => (hwalk' _ hmem).2 _ _ rfl)
          have h3 : (okTailOf cfg prev (runEnvOf cfg prev stem)
              stw.remaining).count (Ev.renameF inprogName sigCacheName) = 1 := by
            unfold okTailOf
            rw [List.count_append, List.count_append]
            have t1 : (stw.remaining.map
                (fun _ => Ev.writeF (runEnvOf cfg prev stem).snapName)).count
                (Ev.renameF inprogName sigCacheName) = 0 := by
              apply List.count_eq_zero.mpr
              intro hmem
              rcases List.mem_map.mp hmem with ⟨p, -, hp⟩
              cases hp
            have t2 : ([Ev.closeF (runEnvOf cfg prev stem).snapName,
                Ev.closeF inprogName] ++
                (if freshRun cfg prev then [] else [Ev.closeF sigCacheName])).count
                (Ev.renameF inprogName sigCacheName) = 0 := by
              apply List.count_eq_zero.mpr
              intro hmem
              rcases List.mem_append.mp hmem with hmem | hmem
              · simp at hmem
              · by_cases hf : freshRun cfg prev
                · rw [if_pos hf] at hmem; simp at hmem
                · rw [if_neg hf] at hmem; simp at hmem
            rw [t1, t2]
            simp [List.count_cons]
          rw [h1, h2, h3]
        · intro _
          refine ⟨preTraceOf cfg prev stem initFiles ++ wEvs ++
              (stw.remaining.map (fun _ =>
                Ev.writeF (runEnvOf cfg prev stem).snapName) ++
              ([Ev.closeF (runEnvOf cfg prev stem).snapName, Ev.closeF inprogName] ++
                (if freshRun cfg prev then [] else [Ev.closeF sigCacheName]))),
            [Ev.chownF sigCacheName], ?_, ?_, ?_, ?_⟩
          · unfold okTailOf
            simp [List.append_assoc]
          · simp
          · simp
          · intro ev hev
            simp only [List.mem_singleton] at hev
            subst hev
            rfl
        · constructor
          · intro _; trivial
          · intro _
            apply List.mem_append.mpr
            right
            unfold okTailOf
            apply List.mem_append.mpr
            right
            simp

/-! ### Facts about the reference predicates -/

theorem entryVisited_and {env : RunEnv} {e : Entry}
    (h : entryVisited env e = true) :
    e.walkErr = false ∧ e.ctxCancelled = false ∧ strStarts env.bp e.path = false ∧
    env.excludes.any (fun ex => ex e.path) = false ∧ e.metaOK = true := by
  unfold entryVisited at h
  simp only [Bool.and_eq_true, Bool.not_eq_true'] at h
  exact ⟨h.1.1.1.1.1, h.1.1.1.1.2, h.1.1.1.2, h.1.1.2, h.1.2⟩

theorem entryChanged_visited {env : RunEnv} {e : Entry}
    (h : entryChanged env e = true) : entryVisited env e = true := by
  unfold entryChanged at h
  rw [Bool.and_eq_true] at h
  exact h.1

theorem entryUnchanged_visited {env : RunEnv} {e : Entry}
    (h : entryUnchanged env e = true) : entryVisited env e = true := by
  unfold entryUnchanged at h
  rw [Bool.and_eq_true] at h
  exact h.1

theorem entryChanged_not_unchanged {env : RunEnv} {e : Entry}
    (h : entryChanged env e = true) : entryUnchanged env e = false := by
  unfold entryChanged at h
  unfold entryUnchanged
  rw [Bool.and_eq_true] at h
  obtain ⟨h1, h2⟩ := h
  rw [h1]
  simp only [Bool.true_and]
  simp only [Bool.not_eq_true'] at h2
  exact h2

theorem entryVisited_cases {env : RunEnv} {e : Entry}
    (h : entryVisited env e = true) :
    entryChanged env e = true ∨ entryUnchanged env e = true := by
  unfold entryChanged entryUnchanged
  rw [h]
  by_cases hc : cacheGet env.cache e.path == e.sig
  · right; simp [hc]
  · left; simp [hc]

theorem entryRec_path (env : RunEnv) (e : Entry) :
    (entryRec env e).path = e.path := by
  unfold entryRec
  split_ifs <;> rfl

theorem entryRec_kind_ne (env : RunEnv) (e : Entry) :
    (entryRec env e).kind ≠ 3 := by
  unfold entryRec
  split_ifs <;> simp

/-! ### Snapshot-count bookkeeping for the file-system model -/

/-- Events that cannot change the number of `.gz.enc` files. -/
def keepsGz : Ev → Bool
  | .createF n => !(strEnds ".gz.enc" n)
  | .removeF n => !(strEnds ".gz.enc" n)
  | .renameF s d => !(strEnds ".gz.enc" s) && !(strEnds ".gz.enc" d)
  | _ => true

theorem countP_filter_ne {P : String → Bool} {n : String} (hn : P n = false)
    (l : List String) : (l.filter (fun m => m != n)).countP P = l.countP P := by
  rw [List.countP_filter]
  apply List.countP_congr
  intro a _
  by_cases ha : a = n
  · subst ha; simp [hn]
  · simp [ha]

theorem gzCount_fsApply {fs : List String} {ev : Ev} (h : keepsGz ev = true) :
    gzCount (fsApply fs ev) = gzCount fs := by
  cases ev with
  | readF n => rfl
  | writeF n => rfl
  | closeF n => rfl
  | chownF n => rfl
  | createF n =>
    simp only [keepsGz, Bool.not_eq_true'] at h
    unfold fsApply gzCount
    dsimp only
    by_cases hc : fs.contains n
    · rw [if_pos hc]
    · rw [if_neg hc, List.countP_append]
      simp [h]
  | removeF n =>
    simp only [keepsGz, Bool.not_eq_true'] at h
    unfold fsApply gzCount
    dsimp only
    exact countP_filter_ne h fs
  | renameF s d =>
    simp only [keepsGz, Bool.and_eq_true, Bool.not_eq_true'] at h
    unfold fsApply gzCount
    dsimp only
    rw [List.countP_append, List.countP_filter]
    have : List.countP
        (fun a => strEnds ".gz.enc" a && (a != s && a != d)) fs =
        List.countP (fun n => strEnds ".gz.enc" n) fs := by
      apply List.countP_congr
      intro a _
      by_cases has : a = s
      · subst has; simp [h.1]
      · by_cases had : a = d
        · subst had; simp [h.2]
        · simp [has, had]
    rw [this]
    simp [h.2]

theorem gzCount_fsAfter {evs : List Ev} :
    ∀ {fs : List String}, (∀ ev ∈ evs, keepsGz ev = true) →
    gzCount (fsAfter fs evs) = gzCount fs := by
  induction evs with
  | nil => intro fs _; rfl
  | cons ev evs ih =>
    intro fs h
    unfold fsAfter at *
    rw [List.foldl_cons]
    rw [ih (fun x hx => h x (by simp [hx]))]
    exact gzCount_fsApply (h ev (by simp))

theorem gzCount_remove_all :
    ∀ (l fs : List String), (∀ n ∈ fs, strEnds ".gz.enc" n = true → n ∈ l) →
    gzCount (fsAfter fs (l.map Ev.removeF)) = 0
  | [], fs => by
    intro h
    unfold fsAfter gzCount
    simp only [List.map_nil, List.foldl_nil]
    apply List.countP_eq_zero.mpr
    intro a ha
    intro hgz
    exact absurd (h a ha hgz) (List.not_mem_nil a)
  | a :: l, fs => by
    intro h
    unfold fsAfter
    simp only [List.map_cons, List.foldl_cons]
    have step : fsApply fs (Ev.removeF a) = fs.filter (fun m => m != a) := rfl
    rw [step]
    apply gzCount_remove_all l
    intro n hn hgz
    rw [List.mem_filter] at hn
    obtain ⟨hn1, hn2⟩ := hn
    rcases List.mem_cons.mp (h n hn1 hgz) with h' | h'
    · exfalso
      simp at hn2
      exact hn2 h'
    · exact h'

theorem walkEv_keepsGz {env : RunEnv} {ev : Ev} (h : isWalkEv env ev = true) :
    keepsGz ev = true := by
  have htmp : strEnds ".gz.enc" (tmpName env) = false := by
    unfold tmpName strEnds
    rw [String.data_append, List.reverse_append]
    have h1 : "/delta".data.reverse = ['a', 't', 'l', 'e', 'd', '/'] := by decide
    rw [h1]
    have h2 : ".gz.enc".data.reverse = ['c', 'n', 'e', '.', 'z', 'g', '.'] := by
      decide
    rw [h2]
    rfl
  unfold isWalkEv at h
  simp only [Bool.or_eq_true, beq_iff_eq] at h
  rcases h with ((((h | h) | h) | h) | h) | h <;> subst h <;>
    simp [keepsGz, htmp]

/-! ### What a successful run commits -/

theorem backupRun_ok_spec (cfg : Config) (prev : Option PrevCache) (stem : String)
    (now : Int) (initFiles : List String) (entries : List Entry)
    (hok : (backupRun cfg prev stem now initFiles entries).err = none) :
    (backupRun cfg prev stem now initFiles entries).scAdds =
      (entries.filter (fun e => entryVisited (runEnvOf cfg prev stem) e)).map
        (fun e => (e.path, e.sig)) ∧
    (backupRun cfg prev stem now initFiles entries).recs =
      (entries.filter (fun e => entryChanged (runEnvOf cfg prev stem) e)).map
        (entryRec (runEnvOf cfg prev stem)) ++
      (backupRun cfg prev stem now initFiles entries).remaining.map
        (fun p => ⟨p, 3, []⟩) ∧
    (backupRun cfg prev stem now initFiles entries).remaining =
      remainingAfter (runEnvOf cfg prev stem) entries
        ((runEnvOf cfg prev stem).cache.map Prod.fst) ∧
    ((backupRun cfg prev stem now initFiles entries).scAdds.map Prod.fst).Nodup := by
  revert hok
  unfold backupRun
  cases hrw : runWalk (runEnvOf cfg prev stem) (st0Of (runEnvOf cfg prev stem))
      entries with
  | mk wEvs rest =>
    cases rest with
    | mk stw r =>
      cases r with
      | some k =>
        intro hok
        exact absurd hok (by simp)
      | none =>
        intro _
        simp only []
        obtain ⟨h1, h2, h3, h4⟩ := runWalk_ok hrw
        unfold st0Of at h1 h2 h3 h4
        simp only [List.nil_append] at h1 h2
        exact ⟨h2, by rw [h1], h3, h4 (by simp)⟩

/-- C1: for every successful run of `backup`, the set of paths recorded in
the committed signature cache (the `sc.Add` calls) equals the union of the
paths that received a snapshot record of kind other than tombstone and the
paths whose current signature equalled the cached one; no other path is
added, and every path is added exactly once. -/
theorem c1_cache_snapshot_agreement (cfg : Config) (prev : Option PrevCache)
    (stem : String) (now : Int) (initFiles : List String) (entries : List Entry)
    (hok : (backupRun cfg prev stem now initFiles entries).err = none) :
    ((backupRun cfg prev stem now initFiles entries).scAdds.map Prod.fst).Nodup ∧
    ∀ p, p ∈ (backupRun cfg prev stem now initFiles entries).scAdds.map Prod.fst ↔
      ((∃ r ∈ (backupRun cfg prev stem now initFiles entries).recs,
          r.path = p ∧ r.kind ≠ 3) ∨
        p ∈ unchangedPaths (runEnvOf cfg prev stem) entries) := by
  obtain ⟨hadds, hrecs, hrem, hnd⟩ :=
    backupRun_ok_spec cfg prev stem now initFiles entries hok
  refine ⟨hnd, fun p => ?_⟩
  constructor
  · intro hp
    rw [hadds, List.map_map] at hp
    obtain ⟨e, hef, hpe⟩ := List.mem_map.mp hp
    obtain ⟨he, hv⟩ := List.mem_filter.mp hef
    rcases entryVisited_cases hv with hch | hun
    · left
      refine ⟨entryRec (runEnvOf cfg prev stem) e, ?_, ?_,
        entryRec_kind_ne (runEnvOf cfg prev stem) e⟩
      · rw [hrecs]
        apply List.mem_append.mpr
        exact Or.inl (List.mem_map.mpr ⟨e, List.mem_filter.mpr ⟨he, hch⟩, rfl⟩)
      · rw [entryRec_path]
        exact hpe
    · right
      unfold unchangedPaths
      exact List.mem_map.mpr ⟨e, List.mem_filter.mpr ⟨he, hun⟩, hpe⟩
  · intro hp
    rcases hp with ⟨r, hr, hrp, hrk⟩ | hp
    · rw [hrecs] at hr
      rcases List.mem_append.mp hr with hr | hr
      · obtain ⟨e, hef, hre⟩ := List.mem_map.mp hr
        obtain ⟨he, hch⟩ := List.mem_filter.mp hef
        rw [hadds, List.map_map]
        apply List.mem_map.mpr
        refine ⟨e, List.mem_filter.mpr ⟨he, entryChanged_visited hch⟩, ?_⟩
        show e.path = p
        rw [← entryRec_path (runEnvOf cfg prev stem) e, hre, hrp]
      · obtain ⟨q, hq, hrq⟩ := List.mem_map.mp hr
        exfalso
        apply hrk
        rw [← hrq]
    · unfold unchangedPaths at hp
      obtain ⟨e, hef, hpe⟩ := List.mem_map.mp hp
      obtain ⟨he, hun⟩ := List.mem_filter.mp hef
      rw [hadds, List.map_map]
      exact List.mem_map.mpr
        ⟨e, List.mem_filter.mpr ⟨he, entryUnchanged_visited hun⟩, hpe⟩

/-- C1 witness: a successful concrete run (one new regular file, one
unchanged regular file, one deleted path) on which the agreement holds. -/
theorem c1_cache_snapshot_agreement_witness :
    ((backupRun ⟨"/backup", [], 5, false⟩
        (some ⟨7, 1, [("/keep", [9]), ("/gone", [4])]⟩) "T" 99 []
        [⟨"/new", false, false, true, .regular, true, true, [], [1, 2], 2, [5], none⟩,
         ⟨"/keep", false, false, true, .regular, true, true, [], [3], 1, [9], none⟩]).err =
      none) ∧
    (((backupRun ⟨"/backup", [], 5, false⟩
        (some ⟨7, 1, [("/keep", [9]), ("/gone", [4])]⟩) "T" 99 []
        [⟨"/new", false, false, true, .regular, true, true, [], [1, 2], 2, [5], none⟩,
         ⟨"/keep", false, false, true, .regular, true, true, [], [3], 1, [9], none⟩]).scAdds.map
        Prod.fst).Nodup ∧
      ∀ p, p ∈ (backupRun ⟨"/backup", [], 5, false⟩
          (some ⟨7, 1, [("/keep", [9]), ("/gone", [4])]⟩) "T" 99 []
          [⟨"/new", false, false, true, .regular, true, true, [], [1, 2], 2, [5], none⟩,
           ⟨"/keep", false, false, true, .regular, true, true, [], [3], 1, [9], none⟩]).scAdds.map
          Prod.fst ↔
        ((∃ r ∈ (backupRun ⟨"/backup", [], 5, false⟩
            (some ⟨7, 1, [("/keep", [9]), ("/gone", [4])]⟩) "T" 99 []
            [⟨"/new", false, false, true, .regular, true, true, [], [1, 2], 2, [5], none⟩,
             ⟨"/keep", false, false, true, .regular, true, true, [], [3], 1, [9], none⟩]).recs,
            r.path = p ∧ r.kind ≠ 3) ∨
          p ∈ unchangedPaths
            (runEnvOf ⟨"/backup", [], 5, false⟩
              (some ⟨7, 1, [("/keep", [9]), ("/gone", [4])]⟩) "T")
            [⟨"/new", false, false, true, .regular, true, true, [], [1, 2], 2, [5], none⟩,
             ⟨"/keep", false, false, true, .regular, true, true, [], [3], 1, [9], none⟩])) :=
  ⟨rfl, c1_cache_snapshot_agreement ⟨"/backup", [], 5, false⟩
    (some ⟨7, 1, [("/keep", [9]), ("/gone", [4])]⟩) "T" 99 []
    [⟨"/new", false, false, true, .regular, true, true, [], [1, 2], 2, [5], none⟩,
     ⟨"/keep", false, false, true, .regular, true, true, [], [3], 1, [9], none⟩] rfl⟩

/-- C9: a regular file whose fresh signature is byte-equal to the cached
one gets no snapshot record at all (tombstones included), and the same
signature bytes are recorded for it exactly once in the new cache. -/
theorem c9_unchanged_regular (cfg : Config) (prev : Option PrevCache)
    (stem : String) (now : Int) (initFiles : List String) (entries : List Entry)
    (e : Entry) (he : e ∈ entries) (hreg : e.ftype = FType.regular)
    (hvis : entryVisited (runEnvOf cfg prev stem) e = true)
    (hsig : (runEnvOf cfg prev stem).cache.lookup e.path = some e.sig)
    (hok : (backupRun cfg prev stem now initFiles entries).err = none) :
    (∀ r ∈ (backupRun cfg prev stem now initFiles entries).recs,
      r.path ≠ e.path) ∧
    (e.path, e.sig) ∈ (backupRun cfg prev stem now initFiles entries).scAdds ∧
    List.count e.path
      ((backupRun cfg prev stem now initFiles entries).scAdds.map Prod.fst) = 1 := by
  obtain ⟨hadds, hrecs, hrem, hnd⟩ :=
    backupRun_ok_spec cfg prev stem now initFiles entries hok
  have hcur : cacheGet (runEnvOf cfg prev stem).cache e.path = e.sig := by
    unfold cacheGet
    rw [hsig]
  have hun : entryUnchanged (runEnvOf cfg prev stem) e = true := by
    unfold entryUnchanged
    rw [hvis, hcur]
    simp
  have hmem : (e.path, e.sig) ∈
      (backupRun cfg prev stem now initFiles entries).scAdds := by
    rw [hadds]
    exact List.mem_map.mpr ⟨e, List.mem_filter.mpr ⟨he, hvis⟩, rfl⟩
  have hpmem : e.path ∈
      ((backupRun cfg prev stem now initFiles entries).scAdds.map Prod.fst) :=
    List.mem_map.mpr ⟨(e.path, e.sig), hmem, rfl⟩
  refine ⟨?_, hmem, List.count_eq_one_of_mem hnd hpmem⟩
  intro r hr hrp
  rw [hrecs] at hr
  rcases List.mem_append.mp hr with hr | hr
  · obtain ⟨e', hef', hre'⟩ := List.mem_map.mp hr
    obtain ⟨he', hch'⟩ := List.mem_filter.mp hef'
    have hpe' : e'.path = e.path := by
      rw [← entryRec_path (runEnvOf cfg prev stem) e', hre', hrp]
    have hndp : ((entries.filter
        (fun x => entryVisited (runEnvOf cfg prev stem) x)).map
        (fun x => (x.path, x.sig)) |>.map Prod.fst).Nodup := by
      rw [← hadds]
      exact hnd
    rw [List.map_map] at hndp
    have hee : e' = e := by
      apply List.inj_on_of_nodup_map hndp
        (List.mem_filter.mpr ⟨he', entryChanged_visited hch'⟩)
        (List.mem_filter.mpr ⟨he, hvis⟩)
      show (e'.path, e'.sig).fst = (e.path, e.sig).fst
      simp [hpe']
    rw [hee] at hch'
    rw [entryChanged_not_unchanged hch'] at hun
    cases hun
  · obtain ⟨q, hq, hrq⟩ := List.mem_map.mp hr
    have hqe : q = e.path := by rw [← hrp, ← hrq]
    rw [hrem] at hq
    obtain ⟨-, hall⟩ := mem_remainingAfter.mp hq
    exact hall e he hvis hqe.symm

/-- C9 witness: an unchanged regular file in a concrete successful run. -/
theorem c9_unchanged_regular_witness :
    ((∀ r ∈ (backupRun ⟨"/backup", [], 5, false⟩ (some ⟨7, 1, [("/keep", [9])]⟩)
        "T" 99 []
        [⟨"/keep", false, false, true, .regular, true, true, [], [3], 1, [9], none⟩]).recs,
      r.path ≠ "/keep") ∧
    ("/keep", ([9] : Bytes)) ∈ (backupRun ⟨"/backup", [], 5, false⟩
        (some ⟨7, 1, [("/keep", [9])]⟩) "T" 99 []
        [⟨"/keep", false, false, true, .regular, true, true, [], [3], 1, [9], none⟩]).scAdds ∧
    List.count "/keep"
      ((backupRun ⟨"/backup", [], 5, false⟩ (some ⟨7, 1, [("/keep", [9])]⟩)
        "T" 99 []
        [⟨"/keep", false, false, true, .regular, true, true, [], [3], 1, [9], none⟩]).scAdds.map
        Prod.fst) = 1) :=
  c9_unchanged_regular ⟨"/backup", [], 5, false⟩ (some ⟨7, 1, [("/keep", [9])]⟩)
    "T" 99 []
    [⟨"/keep", false, false, true, .regular, true, true, [], [3], 1, [9], none⟩]
    ⟨"/keep", false, false, true, .regular, true, true, [], [3], 1, [9], none⟩
    (by simp) rfl (by decide) rfl rfl

/-- C10: the containment check for the backup directory is a plain string
prefix test on absolute paths, so any entry whose path merely begins with
`backup_path` (siblings like `/backup2` for `/backup` included) is skipped
outright: it is never recorded in a non-tombstone record, never added to
the new cache, and if it was in the previous cache it is tombstoned. -/
theorem c10_prefix_skip :
    (∀ (env : RunEnv) (st : WalkState) (e : Entry), e.walkErr = false →
      e.ctxCancelled = false → strStarts env.bp e.path = true →
      processEntry env st e = ([], .ok st)) ∧
    ∀ (cfg : Config) (prev : Option PrevCache) (stem : String) (now : Int)
      (initFiles : List String) (entries : List Entry) (p : String),
      strStarts cfg.backupPath p = true →
      (backupRun cfg prev stem now initFiles entries).err = none →
      (p ∉ (backupRun cfg prev stem now initFiles entries).scAdds.map Prod.fst ∧
       (∀ r ∈ (backupRun cfg prev stem now initFiles entries).recs,
          r.path = p → r.kind = 3) ∧
       (∀ pc, prev = some pc → freshRun cfg prev = false →
          p ∈ pc.entries.map Prod.fst →
          SnapRec.mk p 3 [] ∈
            (backupRun cfg prev stem now initFiles entries).recs)) := by
  constructor
  · intro env st e hw hc hp
    exact processEntry_prefixSkip hw hc hp
  · intro cfg prev stem now initFiles entries p hpre hok
    obtain ⟨hadds, hrecs, hrem, hnd⟩ :=
      backupRun_ok_spec cfg prev stem now initFiles entries hok
    have hbp : (runEnvOf cfg prev stem).bp = cfg.backupPath := rfl
    have hnv : ∀ e : Entry, e.path = p →
        entryVisited (runEnvOf cfg prev stem) e = false := by
      intro e hep
      by_cases hv : entryVisited (runEnvOf cfg prev stem) e
      · exfalso
        have := (entryVisited_and hv).2.2.1
        rw [hbp, hep, hpre] at this
        cases this
      · simpa using hv
    refine ⟨?_, ?_, ?_⟩
    · intro hp
      rw [hadds, List.map_map] at hp
      obtain ⟨e, hef, hpe⟩ := List.mem_map.mp hp
      obtain ⟨-, hv⟩ := List.mem_filter.mp hef
      rw [hnv e hpe] at hv
      cases hv
    · intro r hr hrp
      rw [hrecs] at hr
      rcases List.mem_append.mp hr with hr | hr
      · exfalso
        obtain ⟨e, hef, hre⟩ := List.mem_map.mp hr
        obtain ⟨-, hch⟩ := List.mem_filter.mp hef
        have hpe : e.path = p := by
          rw [← entryRec_path (runEnvOf cfg prev stem) e, hre, hrp]
        have hv := entryChanged_visited hch
        rw [hnv e hpe] at hv
        cases hv
      · obtain ⟨q, -, hrq⟩ := List.mem_map.mp hr
        rw [← hrq]
    · intro pc hpc hfr hmem
      have hcache : (runEnvOf cfg prev stem).cache = pc.entries := by
        subst hpc
        unfold runEnvOf
        simp [hfr]
      rw [hrecs]
      apply List.mem_append.mpr
      right
      apply List.mem_map.mpr
      refine ⟨p, ?_, rfl⟩
      rw [hrem]
      apply mem_remainingAfter.mpr
      refine ⟨?_, ?_⟩
      · rw [hcache]
        exact hmem
      · intro e _ hv hep
        rw [hnv e hep] at hv
        cases hv

/-- C10 witness: with `backup_path = "/backup"`, the sibling `/backup2` is
skipped by the walk callback and tombstoned from the previous cache. -/
theorem c10_prefix_skip_witness :
    (processEntry ⟨"/backup", [], [], "T-2.gz.enc"⟩ ⟨[], [], ["/backup2"], 0⟩
        ⟨"/backup2", false, false, true, .regular, true, true, [], [4], 1, [9], none⟩ =
      ([], .ok ⟨[], [], ["/backup2"], 0⟩)) ∧
    SnapRec.mk "/backup2" 3 [] ∈
      (backupRun ⟨"/backup", [], 5, false⟩ (some ⟨7, 1, [("/backup2", [5])]⟩)
        "T" 99 []
        [⟨"/backup2", false, false, true, .regular, true, true, [], [4], 1, [9],
          none⟩]).recs ∧
    "/backup2" ∉ (backupRun ⟨"/backup", [], 5, false⟩
        (some ⟨7, 1, [("/backup2", [5])]⟩) "T" 99 []
        [⟨"/backup2", false, false, true, .regular, true, true, [], [4], 1, [9],
          none⟩]).scAdds.map Prod.fst :=
  ⟨c10_prefix_skip.1 ⟨"/backup", [], [], "T-2.gz.enc"⟩ ⟨[], [], ["/backup2"], 0⟩
      ⟨"/backup2", false, false, true, .regular, true, true, [], [4], 1, [9], none⟩
      rfl rfl (by decide),
   ((c10_prefix_skip.2 ⟨"/backup", [], 5, false⟩ (some ⟨7, 1, [("/backup2", [5])]⟩)
      "T" 99 []
      [⟨"/backup2", false, false, true, .regular, true, true, [], [4], 1, [9], none⟩]
      "/backup2" (by decide) rfl).2.2 ⟨7, 1, [("/backup2", [5])]⟩ rfl (by decide)
      (by decide)),
   (c10_prefix_skip.2 ⟨"/backup", [], 5, false⟩ (some ⟨7, 1, [("/backup2", [5])]⟩)
      "T" 99 []
      [⟨"/backup2", false, false, true, .regular, true, true, [], [4], 1, [9], none⟩]
      "/backup2" (by decide) rfl).1⟩

/-- C4 counterexample: a path matching a configured exclude pattern that
was present in the previous cache still receives a record in that run's
snapshot — the tombstone loop does not consult the excludes — so the claim
that no record of any kind (tombstones included) appears is false. -/
theorem c4_exclude_counterexample :
    (backupRun ⟨"/backup", [fun s => s == "/a"], 5, false⟩
        (some ⟨7, 1, [("/a", [1])]⟩) "T" 99 [] []).err = none ∧
    (⟨"/backup", [fun s => s == "/a"], 5, false⟩ : Config).excludes.any
      (fun ex => ex "/a") = true ∧
    SnapRec.mk "/a" 3 [] ∈
      (backupRun ⟨"/backup", [fun s => s == "/a"], 5, false⟩
        (some ⟨7, 1, [("/a", [1])]⟩) "T" 99 [] []).recs :=
  ⟨rfl, rfl, by decide⟩

/-- C4 as amended: for a successful run, a path matching a configured
exclude pattern is never added to the new signature cache and never
receives a record of kind 0, 1 or 2; only a tombstone (kind 3) may appear,
when the path was recorded by the previous run. -/
theorem c4_exclude_amended (cfg : Config) (prev : Option PrevCache)
    (stem : String) (now : Int) (initFiles : List String) (entries : List Entry)
    (p : String) (hex : cfg.excludes.any (fun ex => ex p) = true)
    (hok : (backupRun cfg prev stem now initFiles entries).err = none) :
    p ∉ (backupRun cfg prev stem now initFiles entries).scAdds.map Prod.fst ∧
    ∀ r ∈ (backupRun cfg prev stem now initFiles entries).recs,
      r.path = p → r.kind = 3 := by
  obtain ⟨hadds, hrecs, hrem, hnd⟩ :=
    backupRun_ok_spec cfg prev stem now initFiles entries hok
  have hnv : ∀ e : Entry, e.path = p →
      entryVisited (runEnvOf cfg prev stem) e = false := by
    intro e hep
    by_cases hv : entryVisited (runEnvOf cfg prev stem) e
    · exfalso
      have := (entryVisited_and hv).2.2.2.1
      have hexe : (runEnvOf cfg prev stem).excludes.any (fun ex => ex e.path) =
          true := by
        show cfg.excludes.any (fun ex => ex e.path) = true
        rw [hep]
        exact hex
      rw [hexe] at this
      cases this
    · simpa using hv
  refine ⟨?_, ?_⟩
  · intro hp
    rw [hadds, List.map_map] at hp
    obtain ⟨e, hef, hpe⟩ := List.mem_map.mp hp
    obtain ⟨-, hv⟩ := List.mem_filter.mp hef
    rw [hnv e hpe] at hv
    cases hv
  · intro r hr hrp
    rw [hrecs] at hr
    rcases List.mem_append.mp hr with hr | hr
    · exfalso
      obtain ⟨e, hef, hre⟩ := List.mem_map.mp hr
      obtain ⟨-, hch⟩ := List.mem_filter.mp hef
      have hpe : e.path = p := by
        rw [← entryRec_path (runEnvOf cfg prev stem) e, hre, hrp]
      have hv := entryChanged_visited hch
      rw [hnv e hpe] at hv
      cases hv
    · obtain ⟨q, -, hrq⟩ := List.mem_map.mp hr
      rw [← hrq]

/-- C4 amended witness: an excluded, visited path in a successful run gets
no cache entry and no non-tombstone record. -/
theorem c4_exclude_amended_witness :
    "/a" ∉ (backupRun ⟨"/backup", [fun s => s == "/a"], 5, false⟩ none "T" 99 []
      [⟨"/a", false, false, true, .regular, true, true, [], [1], 1, [9],
        none⟩]).scAdds.map Prod.fst ∧
    ∀ r ∈ (backupRun ⟨"/backup", [fun s => s == "/a"], 5, false⟩ none "T" 99 []
      [⟨"/a", false, false, true, .regular, true, true, [], [1], 1, [9],
        none⟩]).recs, r.path = "/a" → r.kind = 3 :=
  c4_exclude_amended ⟨"/backup", [fun s => s == "/a"], 5, false⟩ none "T" 99 []
    [⟨"/a", false, false, true, .regular, true, true, [], [1], 1, [9], none⟩]
    "/a" rfl rfl

/-- A failed `NewMetadata` (the stat of the entry) propagates its error out
of the walk callback, aborting the walk. -/
theorem processEntry_metaFail {env : RunEnv} {st : WalkState} {e : Entry}
    (hw : e.walkErr = false) (hc : e.ctxCancelled = false)
    (hp : strStarts env.bp e.path = false)
    (hx : env.excludes.any (fun ex => ex e.path) = false)
    (hm : e.metaOK = false) :
    processEntry env st e = ([], .error .metaErr) := by
  unfold processEntry
  rw [if_neg (by simp [hw]), if_neg (by simp [hc]), if_neg (by simp [hp]),
     if_neg (by simp [hx]), if_pos (by simp [hm])]

/-- C5 counterexample: neither a failed `os.Readlink` on a symlink nor a
failed `NewMetadata` (stat) on an entry is a logged transient failure —
each propagates out of the walk callback and aborts the whole run without
committing the cache, so the claim that readlink and stat failures let the
run continue is false on both counts. -/
theorem c5_transient_counterexample :
    (backupRun ⟨"/backup", [], 5, false⟩ none "T" 0 []
        [⟨"/l", false, false, true, .symlink, false, true, [2], [], 0, [7],
          none⟩]).err = some EKind.readlinkErr ∧
    Ev.renameF inprogName sigCacheName ∉
      (backupRun ⟨"/backup", [], 5, false⟩ none "T" 0 []
        [⟨"/l", false, false, true, .symlink, false, true, [2], [], 0, [7],
          none⟩]).trace ∧
    (backupRun ⟨"/backup", [], 5, false⟩ none "T" 0 []
        [⟨"/m", false, false, false, .regular, true, true, [], [1], 1, [9],
          none⟩]).err = some EKind.metaErr ∧
    Ev.renameF inprogName sigCacheName ∉
      (backupRun ⟨"/backup", [], 5, false⟩ none "T" 0 []
        [⟨"/m", false, false, false, .regular, true, true, [], [1], 1, [9],
          none⟩]).trace :=
  ⟨rfl, by decide, rfl, by decide⟩

/-- C5 as amended: a walk-callback error and a failed `os.Open` on a
regular file are skipped and the walk continues, the unreadable file
staying in the deletion set untouched; a failed `os.Readlink` on a symlink
and a failed `NewMetadata` (stat) on an entry, however, each propagate an
error that aborts the run. -/
theorem c5_transient_amended :
    (∀ (env : RunEnv) (st : WalkState) (e : Entry), e.walkErr = true →
      processEntry env st e = ([], .ok st)) ∧
    (∀ (env : RunEnv) (st : WalkState) (e : Entry), e.walkErr = false →
      e.ctxCancelled = false → strStarts env.bp e.path = false →
      env.excludes.any (fun ex => ex e.path) = false → e.metaOK = true →
      e.ftype = FType.regular → e.openOK = false →
      processEntry env st e = ([], .ok st)) ∧
    (∀ (env : RunEnv) (st : WalkState) (e : Entry), e.walkErr = false →
      e.ctxCancelled = false → strStarts env.bp e.path = false →
      env.excludes.any (fun ex => ex e.path) = false → e.metaOK = true →
      e.ftype = FType.symlink → e.readlinkOK = false →
      processEntry env st e = ([], .error .readlinkErr)) ∧
    (∀ (env : RunEnv) (st : WalkState) (e : Entry), e.walkErr = false →
      e.ctxCancelled = false → strStarts env.bp e.path = false →
      env.excludes.any (fun ex => ex e.path) = false → e.metaOK = false →
      processEntry env st e = ([], .error .metaErr)) :=
  ⟨fun _ _ _ hw => processEntry_walkErr hw,
   fun _ _ _ hw hc hp hx hm hf ho => processEntry_openFail hw hc hp hx hm hf ho,
   fun _ _ _ hw hc hp hx hm hf hr => processEntry_readlinkFail hw hc hp hx hm hf hr,
   fun _ _ _ hw hc hp hx hm => processEntry_metaFail hw hc hp hx hm⟩

/-- C5 amended witness: a concrete walk-error entry and a concrete
unreadable regular file are both skipped with the state (deletion set
included) unchanged, and a concrete readlink failure and a concrete
metadata (stat) failure each abort. -/
theorem c5_transient_amended_witness :
    processEntry ⟨"/backup", [], [], "s.gz.enc"⟩ ⟨[], [], ["/u"], 0⟩
        ⟨"/w", true, false, true, .regular, true, true, [], [], 0, [], none⟩ =
      ([], .ok ⟨[], [], ["/u"], 0⟩) ∧
    processEntry ⟨"/backup", [], [], "s.gz.enc"⟩ ⟨[], [], ["/u"], 0⟩
        ⟨"/u", false, false, true, .regular, true, false, [], [1], 1, [9], none⟩ =
      ([], .ok ⟨[], [], ["/u"], 0⟩) ∧
    processEntry ⟨"/backup", [], [], "s.gz.enc"⟩ ⟨[], [], ["/u"], 0⟩
        ⟨"/l", false, false, true, .symlink, false, true, [2], [], 0, [7], none⟩ =
      ([], .error .readlinkErr) ∧
    processEntry ⟨"/backup", [], [], "s.gz.enc"⟩ ⟨[], [], ["/u"], 0⟩
        ⟨"/m", false, false, false, .regular, true, true, [], [1], 1, [9], none⟩ =
      ([], .error .metaErr) :=
  ⟨c5_transient_amended.1 ⟨"/backup", [], [], "s.gz.enc"⟩ ⟨[], [], ["/u"], 0⟩
      ⟨"/w", true, false, true, .regular, true, true, [], [], 0, [], none⟩ rfl,
   c5_transient_amended.2.1 ⟨"/backup", [], [], "s.gz.enc"⟩ ⟨[], [], ["/u"], 0⟩
      ⟨"/u", false, false, true, .regular, true, false, [], [1], 1, [9], none⟩
      rfl rfl (by decide) rfl rfl rfl rfl,
   c5_transient_amended.2.2.1 ⟨"/backup", [], [], "s.gz.enc"⟩ ⟨[], [], ["/u"], 0⟩
      ⟨"/l", false, false, true, .symlink, false, true, [2], [], 0, [7], none⟩
      rfl rfl (by decide) rfl rfl rfl rfl,
   c5_transient_amended.2.2.2 ⟨"/backup", [], [], "s.gz.enc"⟩ ⟨[], [], ["/u"], 0⟩
      ⟨"/m", false, false, false, .regular, true, true, [], [1], 1, [9], none⟩
      rfl rfl (by decide) rfl rfl⟩

/-- C7: a visited symlink absent from the previous cache emits a kind-1
record whose payload is exactly the target bytes; one present with a
different signature emits a kind-2 record whose payload is the delta
generated from the cached state and the new target, and applying that
delta to the previous target reconstructs the new target. -/
theorem c7_symlink_records (env : RunEnv) (st : WalkState) (e : Entry)
    (evs : List Ev) (st' : WalkState)
    (h : processEntry env st e = (evs, .ok st'))
    (hf : e.ftype = FType.symlink)
    (hvis : entryVisited env e = true) :
    ((cacheGet env.cache e.path = [] → cacheGet env.cache e.path ≠ e.sig →
      st'.recs = st.recs ++ [⟨e.path, 1, e.target⟩]) ∧
     (∀ s, cacheGet env.cache e.path = s → s ≠ [] → s ≠ e.sig →
      st'.recs = st.recs ++ [⟨e.path, 2, GenDelta s e.target⟩] ∧
      ∀ prevTarget, ApplyDelta prevTarget (GenDelta s e.target) = e.target)) := by
  obtain ⟨hrecs, -, -, -⟩ := processEntry_ok h
  have hch : ∀ (hne : cacheGet env.cache e.path ≠ e.sig),
      entryChanged env e = true := by
    intro hne
    unfold entryChanged
    rw [hvis]
    simp [hne]
  constructor
  · intro hnil hne
    rw [hrecs, if_pos (hch hne)]
    unfold entryRec
    rw [if_pos hf, if_pos hnil]
  · intro s hs hsnil hsne
    have hne : cacheGet env.cache e.path ≠ e.sig := by rw [hs]; exact hsne
    constructor
    · rw [hrecs, if_pos (hch hne)]
      unfold entryRec
      rw [if_pos hf, if_neg (by rw [hs]; exact hsnil), hs]
    · intro prevTarget
      rfl

/-- C7 witness: a concrete new symlink and a concrete changed symlink. -/
theorem c7_symlink_records_witness :
    (∃ evs st',
      processEntry ⟨"/backup", [], [], "s.gz.enc"⟩ ⟨[], [], [], 0⟩
        ⟨"/l", false, false, true, .symlink, true, true, [2, 3], [], 0, [7], none⟩ =
        (evs, .ok st') ∧
      st'.recs = [⟨"/l", 1, [2, 3]⟩]) ∧
    (∃ evs st',
      processEntry ⟨"/backup", [], [("/l", [5])], "s.gz.enc"⟩ ⟨[], [], ["/l"], 0⟩
        ⟨"/l", false, false, true, .symlink, true, true, [2, 3], [], 0, [7], none⟩ =
        (evs, .ok st') ∧
      st'.recs = [⟨"/l", 2, GenDelta [5] [2, 3]⟩] ∧
      ∀ prevTarget, ApplyDelta prevTarget (GenDelta [5] [2, 3]) = [2, 3]) := by
  constructor
  · refine ⟨[Ev.writeF "s.gz.enc", Ev.writeF inprogName],
      ⟨[⟨"/l", 1, [2, 3]⟩], [("/l", [7])], [], 0⟩, rfl, ?_⟩
    have := (c7_symlink_records ⟨"/backup", [], [], "s.gz.enc"⟩ ⟨[], [], [], 0⟩
        ⟨"/l", false, false, true, .symlink, true, true, [2, 3], [], 0, [7], none⟩
        [Ev.writeF "s.gz.enc", Ev.writeF inprogName]
        ⟨[⟨"/l", 1, [2, 3]⟩], [("/l", [7])], [], 0⟩ rfl rfl
        (by decide)).1 (by decide) (by decide)
    simpa using this
  · refine ⟨[Ev.writeF "s.gz.enc", Ev.writeF inprogName],
      ⟨[⟨"/l", 2, GenDelta [5] [2, 3]⟩], [("/l", [7])], [], 0⟩, rfl, ?_, ?_⟩
    · have := ((c7_symlink_records ⟨"/backup", [], [("/l", [5])], "s.gz.enc"⟩
          ⟨[], [], ["/l"], 0⟩
          ⟨"/l", false, false, true, .symlink, true, true, [2, 3], [], 0, [7], none⟩
          [Ev.writeF "s.gz.enc", Ev.writeF inprogName]
          ⟨[⟨"/l", 2, GenDelta [5] [2, 3]⟩], [("/l", [7])], [], 0⟩ rfl rfl
          (by decide)).2 [5] (by decide) (by decide) (by decide)).1
      simpa using this
    · intro prevTarget
      rfl

/-- C8: for a visited changed regular file, when its size exceeds
`memoryLimit * 10` (with `memoryLimit` = 10 MiB) the delta is staged into
a temporary file created inside the backup path, streamed into the
snapshot, and that file is closed and removed before the entry's
processing ends — on the success path and on every injected error path;
for smaller files no file is touched beyond plain writes (the delta stays
in memory); either way the emitted record carries the delta payload. -/
theorem c8_large_delta_staging (env : RunEnv) (st : WalkState) (e : Entry)
    (hw : e.walkErr = false) (hc : e.ctxCancelled = false)
    (hp : strStarts env.bp e.path = false)
    (hx : env.excludes.any (fun ex => ex e.path) = false)
    (hm : e.metaOK = true) (hf : e.ftype = FType.regular) (ho : e.openOK = true)
    (hnil : cacheGet env.cache e.path ≠ [])
    (hch : cacheGet env.cache e.path ≠ e.sig) :
    memoryLimit = 10485760 ∧
    (e.size > memoryLimit * 10 →
      ((e.failPoint = none →
        Ev.createF (tmpName env) ∈ (processEntry env st e).1 ∧
        Ev.writeF env.snapName ∈ (processEntry env st e).1) ∧
       (Ev.createF (tmpName env) ∈ (processEntry env st e).1 →
        ∃ l₁ l₂, (processEntry env st e).1 =
            l₁ ++ [Ev.closeF (tmpName env), Ev.removeF (tmpName env)] ++ l₂ ∧
          Ev.createF (tmpName env) ∈ l₁ ∧
          ∀ ev ∈ l₂, ev = Ev.writeF inprogName))) ∧
    (¬ e.size > memoryLimit * 10 →
      ∀ ev ∈ (processEntry env st e).1, ∃ n, ev = Ev.writeF n) ∧
    (∀ evs st', processEntry env st e = (evs, .ok st') →
      st'.recs = st.recs ++
        [⟨e.path, 2, GenDelta (cacheGet env.cache e.path) e.content⟩]) := by
  have hpe : processEntry env st e =
      processRegular env st e (cacheGet env.cache e.path) := by
    unfold processEntry
    rw [if_neg (by simp [hw]), if_neg (by simp [hc]), if_neg (by simp [hp]),
      if_neg (by simp [hx]), if_neg (by simp [hm]), hf]
  refine ⟨rfl, ?_, ?_, ?_⟩
  · intro hlarge
    rw [hpe]
    unfold processRegular
    rw [ho]
    simp only [Bool.not_true, Bool.false_eq_true, if_false]
    rw [if_neg hch, if_pos hnil, if_pos hlarge]
    cases hfp : e.failPoint with
    | none =>
      unfold withAdd scAddE
      dsimp only
      by_cases hdup :
          ((st.scAdds ++ []).map Prod.fst).contains e.path = true
      · constructor
        · intro _
          rw [if_pos (by simpa using hdup)]
          simp
        · intro _
          rw [if_pos (by simpa using hdup)]
          refine ⟨[Ev.createF (tmpName env), Ev.writeF (tmpName env),
            Ev.writeF env.snapName], [], rfl, (by simp), ?_⟩
          intro ev hev
          simp at hev
      · constructor
        · intro _
          rw [if_neg (by simpa using hdup)]
          simp
        · intro _
          rw [if_neg (by simpa using hdup)]
          refine ⟨[Ev.createF (tmpName env), Ev.writeF (tmpName env),
            Ev.writeF env.snapName], [Ev.writeF inprogName], rfl, (by simp), ?_⟩
          intro ev hev
          simp only [List.mem_singleton] at hev
          exact hev
    | some fp =>
      cases fp with
      | createTemp =>
        refine ⟨fun hcontra => ?_, fun hmem => ?_⟩
        · simp [hfp] at hcontra
        · simp at hmem
      | genDelta =>
        refine ⟨fun hcontra => ?_, fun _ => ?_⟩
        · simp [hfp] at hcontra
        · refine ⟨[Ev.createF (tmpName env)], [], rfl, (by simp), ?_⟩
          intro ev hev
          simp at hev
      | seekT =>
        refine ⟨fun hcontra => ?_, fun _ => ?_⟩
        · simp [hfp] at hcontra
        · refine ⟨[Ev.createF (tmpName env), Ev.writeF (tmpName env)], [], rfl,
            (by simp), ?_⟩
          intro ev hev
          simp at hev
      | statF =>
        refine ⟨fun hcontra => ?_, fun _ => ?_⟩
        · simp [hfp] at hcontra
        · refine ⟨[Ev.createF (tmpName env), Ev.writeF (tmpName env)], [], rfl,
            (by simp), ?_⟩
          intro ev hev
          simp at hev
      | snapAdd =>
        refine ⟨fun hcontra => ?_, fun _ => ?_⟩
        · simp [hfp] at hcontra
        · refine ⟨[Ev.createF (tmpName env), Ev.writeF (tmpName env)], [], rfl,
            (by simp), ?_⟩
          intro ev hev
          simp at hev
  · intro hsmall
    rw [hpe]
    unfold processRegular
    rw [ho]
    simp only [Bool.not_true, Bool.false_eq_true, if_false]
    rw [if_neg hch, if_pos hnil, if_neg hsmall]
    cases hfp : e.failPoint with
    | none =>
      unfold withAdd scAddE
      dsimp only
      by_cases hdup :
          ((st.scAdds ++ []).map Prod.fst).contains e.path = true
      · rw [if_pos (by simpa using hdup)]
        intro ev hev
        simp only [List.mem_singleton] at hev
        exact ⟨env.snapName, hev⟩
      · rw [if_neg (by simpa using hdup)]
        intro ev hev
        simp only [List.mem_append, List.mem_singleton] at hev
        rcases hev with hev | hev
        · exact ⟨env.snapName, hev⟩
        · exact ⟨inprogName, hev⟩
    | some fp =>
      have hw1 : ∀ ev, ev ∈ (withAdd st e.path e.sig [Ev.writeF env.snapName]
          (some ⟨e.path, 2, GenDelta (cacheGet env.cache e.path) e.content⟩)).1 →
          ∃ n, ev = Ev.writeF n := by
        intro ev hev
        rcases withAdd_evs hev with hev | hev
        · simp only [List.mem_singleton] at hev
          exact ⟨env.snapName, hev⟩
        · exact ⟨inprogName, hev⟩
      cases fp with
      | genDelta => intro ev hev; simp at hev
      | snapAdd => intro ev hev; simp at hev
      | createTemp => exact hw1
      | seekT => exact hw1
      | statF => exact hw1
  · intro evs st' h
    obtain ⟨hrecs, -, -, -⟩ := processEntry_ok h
    have hvis : entryVisited env e = true := by
      unfold entryVisited
      rw [hw, hc, hp, hx, hm, hf, ho]
      rfl
    have hchd : entryChanged env e = true := by
      unfold entryChanged
      rw [hvis]
      simp [hch]
    rw [hrecs, if_pos hchd]
    unfold entryRec
    rw [if_neg (by rw [hf]; decide), if_pos hf, if_neg hnil]

/-- C8 witness: a concrete 100 MiB + 1 changed regular file is staged
through the temp delta file, which is closed and removed within the same
entry's events. -/
theorem c8_large_delta_staging_witness :
    ((104857601 : Int) > memoryLimit * 10) ∧
    Ev.createF (tmpName ⟨"/backup", [], [("/b", [5])], "s.gz.enc"⟩) ∈
      (processEntry ⟨"/backup", [], [("/b", [5])], "s.gz.enc"⟩ ⟨[], [], ["/b"], 0⟩
        ⟨"/b", false, false, true, .regular, true, true, [], [4, 4], 104857601,
          [9], none⟩).1 ∧
    ∃ l₁ l₂,
      (processEntry ⟨"/backup", [], [("/b", [5])], "s.gz.enc"⟩ ⟨[], [], ["/b"], 0⟩
        ⟨"/b", false, false, true, .regular, true, true, [], [4, 4], 104857601,
          [9], none⟩).1 =
        l₁ ++ [Ev.closeF (tmpName ⟨"/backup", [], [("/b", [5])], "s.gz.enc"⟩),
          Ev.removeF (tmpName ⟨"/backup", [], [("/b", [5])], "s.gz.enc"⟩)] ++ l₂ ∧
      Ev.createF (tmpName ⟨"/backup", [], [("/b", [5])], "s.gz.enc"⟩) ∈ l₁ ∧
      ∀ ev ∈ l₂, ev = Ev.writeF inprogName := by
  have h := c8_large_delta_staging ⟨"/backup", [], [("/b", [5])], "s.gz.enc"⟩
    ⟨[], [], ["/b"], 0⟩
    ⟨"/b", false, false, true, .regular, true, true, [], [4, 4], 104857601,
      [9], none⟩
    rfl rfl (by decide) rfl rfl rfl rfl (by decide) (by decide)
  have hlarge : ((104857601 : Int) > memoryLimit * 10) := by decide
  have hcr := ((h.2.1 hlarge).1 rfl).1
  exact ⟨hlarge, hcr, (h.2.1 hlarge).2 hcr⟩

theorem runWalk_cancel {env : RunEnv} :
    ∀ {entries : List Entry} {st : WalkState},
    (∃ e ∈ entries, e.ctxCancelled = true ∧ e.walkErr = false) →
    ∀ {evs : List Ev} {st' : WalkState} {r : Option EKind},
    runWalk env st entries = (evs, st', r) → r ≠ none
  | [], st => by
    rintro ⟨e, he, -⟩
    exact absurd he (List.not_mem_nil e)
  | e :: es, st => by
    rintro ⟨e', he', hc', hw'⟩ evs st' r h
    unfold runWalk at h
    cases hpe : processEntry env st e with
    | mk evs1 rr =>
      rw [hpe] at h
      cases rr with
      | error k =>
        simp only [Prod.mk.injEq] at h
        obtain ⟨-, -, hr⟩ := h
        rw [← hr]
        simp
      | ok st1 =>
        simp only [] at h
        cases hrw : runWalk env st1 es with
        | mk evs2 rest =>
          cases rest with
          | mk st2 r2 =>
            rw [hrw] at h
            simp only [Prod.mk.injEq] at h
            obtain ⟨-, -, hr⟩ := h
            rcases List.mem_cons.mp he' with rfl | he'
            · rw [processEntry_cancelled hw' hc'] at hpe
              simp at hpe
            · exact hr ▸ runWalk_cancel ⟨e', he', hc', hw'⟩ hrw

/-- C6: if the cancellation token trips during the walk (some walked entry
observes it at the per-entry check), the run aborts: the partial snapshot
is closed and deleted, `sig.cache.inprogress` is never renamed over
`sig.cache`, and nothing in the trace mutates the committed cache. -/
theorem c6_cancellation_aborts (cfg : Config) (prev : Option PrevCache)
    (stem : String) (now : Int) (initFiles : List String) (entries : List Entry)
    (hcancel : ∃ e ∈ entries, e.ctxCancelled = true ∧ e.walkErr = false) :
    (backupRun cfg prev stem now initFiles entries).err ≠ none ∧
    Ev.removeF (backupRun cfg prev stem now initFiles entries).snapName ∈
      (backupRun cfg prev stem now initFiles entries).trace ∧
    Ev.renameF inprogName sigCacheName ∉
      (backupRun cfg prev stem now initFiles entries).trace ∧
    ∀ ev ∈ (backupRun cfg prev stem now initFiles entries).trace,
      mutatesF ev sigCacheName = false := by
  unfold backupRun
  cases hrw : runWalk (runEnvOf cfg prev stem) (st0Of (runEnvOf cfg prev stem))
      entries with
  | mk wEvs rest =>
    cases rest with
    | mk stw r =>
      have hwalk' : ∀ ev ∈ wEvs,
          mutatesF ev sigCacheName = false ∧ ∀ a b, ev ≠ Ev.renameF a b :=
        fun ev hev => walkEv_no_sig (runWalk_evs hrw ev hev)
          (snapName_ne_sig cfg prev stem)
      cases r with
      | some k =>
        simp only []
        refine ⟨by simp, ?_, ?_, ?_⟩
        · apply List.mem_append.mpr
          right
          unfold errTailOf
          simp
        · intro hmem
          rcases List.mem_append.mp hmem with hmem | hmem
          · rcases List.mem_append.mp hmem with hmem | hmem
            · exact (preTrace_no_sig hmem).2 _ _ rfl
            · exact (hwalk' _ hmem).2 _ _ rfl
          · exact (errTail_no_sig hmem).2 _ _ rfl
        · intro ev hev
          rcases List.mem_append.mp hev with hev | hev
          · rcases List.mem_append.mp hev with hev | hev
            · exact (preTrace_no_sig hev).1
            · exact (hwalk' _ hev).1
          · exact (errTail_no_sig hev).1
      | none =>
        exact absurd rfl (runWalk_cancel hcancel hrw)

/-- C6 witness: a concrete run whose second entry observes the tripped
token aborts with the snapshot removed and no cache rename. -/
theorem c6_cancellation_aborts_witness :
    (backupRun ⟨"/backup", [], 5, false⟩ none "T" 0 []
      [⟨"/a", false, false, true, .regular, true, true, [], [1], 1, [5], none⟩,
       ⟨"/c", false, true, true, .regular, true, true, [], [2], 1, [6], none⟩]).err ≠
      none ∧
    Ev.removeF (backupRun ⟨"/backup", [], 5, false⟩ none "T" 0 []
      [⟨"/a", false, false, true, .regular, true, true, [], [1], 1, [5], none⟩,
       ⟨"/c", false, true, true, .regular, true, true, [], [2], 1, [6], none⟩]).snapName ∈
      (backupRun ⟨"/backup", [], 5, false⟩ none "T" 0 []
      [⟨"/a", false, false, true, .regular, true, true, [], [1], 1, [5], none⟩,
       ⟨"/c", false, true, true, .regular, true, true, [], [2], 1, [6], none⟩]).trace ∧
    Ev.renameF inprogName sigCacheName ∉
      (backupRun ⟨"/backup", [], 5, false⟩ none "T" 0 []
      [⟨"/a", false, false, true, .regular, true, true, [], [1], 1, [5], none⟩,
       ⟨"/c", false, true, true, .regular, true, true, [], [2], 1, [6], none⟩]).trace ∧
    ∀ ev ∈ (backupRun ⟨"/backup", [], 5, false⟩ none "T" 0 []
      [⟨"/a", false, false, true, .regular, true, true, [], [1], 1, [5], none⟩,
       ⟨"/c", false, true, true, .regular, true, true, [], [2], 1, [6], none⟩]).trace,
      mutatesF ev sigCacheName = false :=
  c6_cancellation_aborts ⟨"/backup", [], 5, false⟩ none "T" 0 []
    [⟨"/a", false, false, true, .regular, true, true, [], [1], 1, [5], none⟩,
     ⟨"/c", false, true, true, .regular, true, true, [], [2], 1, [6], none⟩]
    ⟨⟨"/c", false, true, true, .regular, true, true, [], [2], 1, [6], none⟩,
      by simp, rfl, rfl⟩

theorem backupRun_inc (cfg : Config) (prev : Option PrevCache) (stem : String)
    (now : Int) (initFiles : List String) (entries : List Entry) :
    (backupRun cfg prev stem now initFiles entries).inc = incOf cfg prev := by
  unfold backupRun
  cases hrw : runWalk (runEnvOf cfg prev stem) (st0Of (runEnvOf cfg prev stem))
      entries with
  | mk a rest =>
    cases rest with
    | mk b r => cases r <;> rfl

theorem backupRun_stamp (cfg : Config) (prev : Option PrevCache) (stem : String)
    (now : Int) (initFiles : List String) (entries : List Entry) :
    (backupRun cfg prev stem now initFiles entries).stamp =
      stampOf cfg prev now := by
  unfold backupRun
  cases hrw : runWalk (runEnvOf cfg prev stem) (st0Of (runEnvOf cfg prev stem))
      entries with
  | mk a rest =>
    cases rest with
    | mk b r => cases r <;> rfl

theorem backupRun_snapName (cfg : Config) (prev : Option PrevCache)
    (stem : String) (now : Int) (initFiles : List String) (entries : List Entry) :
    (backupRun cfg prev stem now initFiles entries).snapName =
      (runEnvOf cfg prev stem).snapName := by
  unfold backupRun
  cases hrw : runWalk (runEnvOf cfg prev stem) (st0Of (runEnvOf cfg prev stem))
      entries with
  | mk a rest =>
    cases rest with
    | mk b r => cases r <;> rfl

theorem backupRun_trace_ok (cfg : Config) (prev : Option PrevCache)
    (stem : String) (now : Int) (initFiles : List String) (entries : List Entry)
    (hok : (backupRun cfg prev stem now initFiles entries).err = none) :
    ∃ wEvs rem, (∀ ev ∈ wEvs, isWalkEv (runEnvOf cfg prev stem) ev = true) ∧
      (backupRun cfg prev stem now initFiles entries).trace =
        preTraceOf cfg prev stem initFiles ++ wEvs ++
          okTailOf cfg prev (runEnvOf cfg prev stem) rem := by
  revert hok
  unfold backupRun
  cases hrw : runWalk (runEnvOf cfg prev stem) (st0Of (runEnvOf cfg prev stem))
      entries with
  | mk wEvs rest =>
    cases rest with
    | mk stw r =>
      cases r with
      | some k =>
        intro hok
        exact absurd hok (by simp)
      | none =>
        intro _
        exact ⟨wEvs, stw.remaining, runWalk_evs hrw, rfl⟩

theorem fsAfter_append (fs : List String) (a b : List Ev) :
    fsAfter fs (a ++ b) = fsAfter (fsAfter fs a) b :=
  List.foldl_append fsApply fs a b

theorem mem_fsApply_create {fs : List String} {n m : String} (h : n ∈ fs) :
    n ∈ fsApply fs (Ev.createF m) := by
  unfold fsApply
  dsimp only
  by_cases hc : fs.contains m = true
  · rw [if_pos hc]; exact h
  · rw [if_neg hc]; exact List.mem_append.mpr (Or.inl h)

theorem okTail_keepsGz {cfg : Config} {prev : Option PrevCache} {env : RunEnv}
    {rem : List String} {ev : Ev} (h : ev ∈ okTailOf cfg prev env rem) :
    keepsGz ev = true := by
  unfold okTailOf at h
  rcases List.mem_append.mp h with h | h
  · rcases List.mem_append.mp h with h | h
    · obtain ⟨q, -, hq⟩ := List.mem_map.mp h
      rw [← hq]; rfl
    · rcases List.mem_append.mp h with h | h
      · simp only [List.mem_cons, List.not_mem_nil, or_false] at h
        rcases h with rfl | rfl <;> rfl
      · by_cases hf : freshRun cfg prev
        · rw [if_pos hf] at h; simp at h
        · rw [if_neg hf] at h
          simp only [List.mem_singleton] at h
          subst h; rfl
  · simp only [List.mem_cons, List.not_mem_nil, or_false] at h
    rcases h with rfl | rfl
    · simp [keepsGz]
      constructor <;> decide
    · rfl


theorem fsAfter_single (fs : List String) (ev : Ev) :
    fsAfter fs [ev] = fsApply fs ev := rfl

theorem gzCount_create_gz {fs : List String} {n : String}
    (hgz : strEnds ".gz.enc" n = true) (h0 : gzCount fs = 0) :
    gzCount (fsApply fs (Ev.createF n)) = 1 := by
  have hmem : n ∉ fs := fun hmem => absurd hgz (List.countP_eq_zero.mp h0 n hmem)
  unfold fsApply
  dsimp only
  rw [if_neg (by simpa using hmem)]
  unfold gzCount at h0 ⊢
  rw [List.countP_append, h0]
  simp [hgz]

/-- C3 counterexample: a fresh-generation dry run is successful and honours
dry-run by not deleting the old snapshots, so after this increment-0 run
`backup_path` holds two `.gz.enc` files, refuting the claimed consequence
for every successful increment-0 run. -/
theorem c3_fresh_reset_counterexample :
    (backupRun ⟨"/backup", [], 5, true⟩ none "T" 99 ["old.gz.enc"] []).err =
      none ∧
    (backupRun ⟨"/backup", [], 5, true⟩ none "T" 99 ["old.gz.enc"] []).inc = 0 ∧
    (⟨"/backup", [], 5, true⟩ : Config).dryRun = true ∧
    gzCount (fsAfter ["old.gz.enc"]
      (backupRun ⟨"/backup", [], 5, true⟩ none "T" 99 ["old.gz.enc"] []).trace) =
      2 :=
  ⟨rfl, rfl, rfl, by decide⟩

/-- C3 as amended: a fresh generation uses increment 0 and base timestamp
`now`, and — when dry-run is off — every `.gz.enc` file present at the
start is deleted before the snapshot file is created, so a successful
non-dry fresh run leaves exactly one `.gz.enc` file in `backup_path`. -/
theorem c3_fresh_reset_amended (cfg : Config) (prev : Option PrevCache)
    (stem : String) (now : Int) (initFiles : List String) (entries : List Entry)
    (hfresh : freshRun cfg prev = true) (hdry : cfg.dryRun = false)
    (hok : (backupRun cfg prev stem now initFiles entries).err = none) :
    (backupRun cfg prev stem now initFiles entries).inc = 0 ∧
    (backupRun cfg prev stem now initFiles entries).stamp = now ∧
    gzCount (fsAfter initFiles
      (backupRun cfg prev stem now initFiles entries).trace) = 1 ∧
    ∃ l₁ l₂, (backupRun cfg prev stem now initFiles entries).trace =
        l₁ ++ Ev.createF (backupRun cfg prev stem now initFiles entries).snapName ::
          l₂ ∧
      ∀ n ∈ initFiles, strEnds ".gz.enc" n = true → Ev.removeF n ∈ l₁ := by
  obtain ⟨wEvs, rem, hwevs, htr⟩ :=
    backupRun_trace_ok cfg prev stem now initFiles entries hok
  have hinc0 : incOf cfg prev = 0 := by
    unfold incOf
    rw [if_pos hfresh]
  have hrm : rmEvsOf cfg prev initFiles =
      ((fsAfter initFiles [Ev.readF sigCacheName, Ev.createF inprogName]).filter
        (fun n => strEnds ".gz.enc" n)).map Ev.removeF := by
    unfold rmEvsOf
    rw [if_pos hinc0, if_neg (by simp [hdry])]
  refine ⟨?_, ?_, ?_, ?_⟩
  · rw [backupRun_inc]
    exact hinc0
  · rw [backupRun_stamp]
    unfold stampOf
    rw [if_pos hfresh]
  · rw [htr]
    rw [fsAfter_append, fsAfter_append]
    rw [gzCount_fsAfter (fun ev hev => okTail_keepsGz hev)]
    rw [gzCount_fsAfter (fun ev hev => walkEv_keepsGz (hwevs ev hev))]
    unfold preTraceOf
    rw [fsAfter_append, fsAfter_append, fsAfter_single, hrm]
    apply gzCount_create_gz (snapName_gz cfg prev stem)
    apply gzCount_remove_all
    intro n hn hgz
    exact List.mem_filter.mpr ⟨hn, hgz⟩
  · refine ⟨[Ev.readF sigCacheName, Ev.createF inprogName] ++
      rmEvsOf cfg prev initFiles, wEvs ++ okTailOf cfg prev (runEnvOf cfg prev stem)
      rem, ?_, ?_⟩
    · rw [htr, backupRun_snapName]
      unfold preTraceOf
      simp [List.append_assoc]
    · intro n hn hgz
      apply List.mem_append.mpr
      right
      rw [hrm]
      apply List.mem_map.mpr
      refine ⟨n, ?_, rfl⟩
      apply List.mem_filter.mpr
      refine ⟨?_, hgz⟩
      unfold fsAfter
      simp only [List.foldl_cons, List.foldl_nil]
      exact mem_fsApply_create hn

/-- C3 amended witness: a concrete fresh, non-dry run over a directory
holding one old snapshot ends with exactly one `.gz.enc` file. -/
theorem c3_fresh_reset_amended_witness :
    (backupRun ⟨"/backup", [], 5, false⟩ none "T" 99 ["old.gz.enc"] []).inc = 0 ∧
    (backupRun ⟨"/backup", [], 5, false⟩ none "T" 99 ["old.gz.enc"] []).stamp =
      99 ∧
    gzCount (fsAfter ["old.gz.enc"]
      (backupRun ⟨"/backup", [], 5, false⟩ none "T" 99 ["old.gz.enc"] []).trace) =
      1 ∧
    ∃ l₁ l₂,
      (backupRun ⟨"/backup", [], 5, false⟩ none "T" 99 ["old.gz.enc"] []).trace =
        l₁ ++ Ev.createF (backupRun ⟨"/backup", [], 5, false⟩ none "T" 99
          ["old.gz.enc"] []).snapName :: l₂ ∧
      ∀ n ∈ ["old.gz.enc"], strEnds ".gz.enc" n = true → Ev.removeF n ∈ l₁ :=
  c3_fresh_reset_amended ⟨"/backup", [], 5, false⟩ none "T" 99 ["old.gz.enc"] []
    rfl rfl rfl

/-- C2 witness: on a concrete successful run the commit rename is present,
after both closes, and is the only content mutation of `sig.cache`. -/
theorem c2_cache_commit_atomic_witness :
    (∀ ev ∈ (backupRun ⟨"/backup", [], 5, false⟩ none "T" 0 [] []).trace,
        mutatesF ev sigCacheName = true →
        ev = Ev.renameF inprogName sigCacheName) ∧
    (backupRun ⟨"/backup", [], 5, false⟩ none "T" 0 [] []).trace.count
        (Ev.renameF inprogName sigCacheName) ≤ 1 ∧
    (∃ l₁ l₂, (backupRun ⟨"/backup", [], 5, false⟩ none "T" 0 [] []).trace =
        l₁ ++ Ev.renameF inprogName sigCacheName :: l₂ ∧
      Ev.closeF (backupRun ⟨"/backup", [], 5, false⟩ none "T" 0 [] []).snapName ∈
        l₁ ∧
      Ev.closeF inprogName ∈ l₁ ∧
      ∀ ev ∈ l₂, mutatesF ev sigCacheName = false) ∧
    Ev.renameF inprogName sigCacheName ∈
      (backupRun ⟨"/backup", [], 5, false⟩ none "T" 0 [] []).trace :=
  ⟨(c2_cache_commit_atomic ⟨"/backup", [], 5, false⟩ none "T" 0 [] []).1,
   (c2_cache_commit_atomic ⟨"/backup", [], 5, false⟩ none "T" 0 [] []).2.1,
   (c2_cache_commit_atomic ⟨"/backup", [], 5, false⟩ none "T" 0 [] []).2.2.1 rfl,
   ((c2_cache_commit_atomic ⟨"/backup", [], 5, false⟩ none "T" 0 [] []).2.2.2).mpr
     rfl⟩
